import Mathlib

/-!
# RAR file source output pin: part locator and asynchronous read scheduler

A shallow embedding of `CRFSOutputPin` (`OutputPin.cpp`): the part lookup
(`compare`, `FindStartPart`), the sample conversion (`ConvertSample`), the
asynchronous path (`Request`, `WaitForNext`, `DoFlush`, `BeginFlush`,
`EndFlush`) and the blocking path (`SyncRead`).

Conventions of the embedding.

* `LONGLONG` values are `Int`; the part table is assumed small enough that
  64-bit sums do not wrap.  `DWORD` values are `Nat` below `2 ^ 32`, and every
  conversion to `DWORD` is an explicit reduction modulo `2 ^ 32`.
* Pointers to array elements are indices, `NULL` is `none`.
* Calls into the operating system (`CreateEvent`, `ReadFile`,
  `WaitForMultipleObjects`, `GetOverlappedResult`) take their outcome from an
  explicit environment argument; every physical read that is issued is
  recorded in a log returned next to the result.
* A local that the source declares without an initialiser holds a value
  supplied by the environment argument until it is assigned.
* The pin is run by one thread at a time: no other thread changes the pin
  between two steps of a call.
-/

namespace RFS

/-! ## Machine integers and result codes -/

/-- Conversion of a 64-bit signed value to `DWORD`: reduction modulo `2 ^ 32`. -/
def toDWORD (x : Int) : Nat := (x % 4294967296).toNat

/-- Conversion of a `DWORD` to `LONG`: the two's complement reading of 32 bits. -/
def toLONG (x : Nat) : Int :=
  if x % 4294967296 < 2147483648 then ((x % 4294967296 : Nat) : Int)
  else ((x % 4294967296 : Nat) : Int) - 4294967296

/-- Bit pattern of a `LONGLONG`: reduction modulo `2 ^ 64`. -/
def toU64 (x : Int) : Nat := (x % 18446744073709551616).toNat

/-- Signed reading of a 64-bit pattern. -/
def toI64 (n : Nat) : Int :=
  if n % 18446744073709551616 < 9223372036854775808 then ((n % 18446744073709551616 : Nat) : Int)
  else ((n % 18446744073709551616 : Nat) : Int) - 18446744073709551616

abbrev HRESULT := Int

def S_OK : HRESULT := 0
def S_FALSE : HRESULT := 1
/-- The Win32 error code (not an `HRESULT`): a small positive number. -/
def ERROR_HANDLE_EOF : Int := 38
def ERROR_IO_PENDING : Int := 997
def E_POINTER : HRESULT := 0x80004003 - 4294967296
def E_FAIL : HRESULT := 0x80004005 - 4294967296
def E_UNEXPECTED : HRESULT := 0x8000FFFF - 4294967296
def E_OUTOFMEMORY : HRESULT := 0x8007000E - 4294967296
def VFW_E_BADALIGN : HRESULT := 0x8004020E - 4294967296
def VFW_E_WRONG_STATE : HRESULT := 0x80040227 - 4294967296
def VFW_E_TIMEOUT : HRESULT := 0x8004022E - 4294967296

/-- The `FAILED` test of an `HRESULT`: the sign bit is set. -/
def FAILED (hr : HRESULT) : Bool := decide (hr < 0)

/-- Number of 100 ns units per second (`UNITS` of the streams headers). -/
def UNITS : Int := 10000000

def LONG_MAX : Int := 2147483647

def INFINITE : Nat := 4294967295

/-! ## The part table -/

/-- Modelled from the spec: the declaration of `FilePart` (header `RFS.h`) is
not among the sources.  A part has a physical file handle, a physical base
offset inside that file, a virtual start offset and a size in bytes; the three
numbers are 64-bit signed. -/
structure FilePart where
  file : Nat
  in_rar_offset : Int
  in_file_offset : Int
  size : Int
deriving DecidableEq, Repr

/-- Modelled from the spec: the declaration of `File` (header `RFS.h`) is not
among the sources.  A virtual file has a total size and the ordered sequence
of its parts; `parts` is the number of elements of `array`. -/
structure File where
  size : Int
  array : List FilePart
deriving DecidableEq, Repr

def File.parts (f : File) : Nat := f.array.length

/-- The three-way comparator of `FindStartPart`. -/
def compare (pos : Int) (part : FilePart) : Int :=
  if pos < part.in_file_offset then -1
  else if pos ≥ part.in_file_offset + part.size then 1
  else 0

/-- The halving loop of the C library `bsearch` over `base[lo .. hi)`. The
first argument bounds the number of probes; `hi - lo` probes always suffice. -/
def bsearchLoop (key : Int) (base : List FilePart) : Nat → Nat → Nat → Option Nat
  | 0, _, _ => none
  | fuel + 1, lo, hi =>
    if lo < hi then
      let mid := lo + (hi - lo) / 2
      match base[mid]? with
      | none => none
      | some p =>
        let c := compare key p
        if c < 0 then bsearchLoop key base fuel lo mid
        else if c > 0 then bsearchLoop key base fuel (mid + 1) hi
        else some mid
    else none

/-- The C library `bsearch (&key, base, nmemb, sizeof (FilePart), compare)`:
the index of a matching element, or `none` for `NULL`. -/
def bsearch (key : Int) (base : List FilePart) (nmemb : Nat) : Option Nat :=
  bsearchLoop key base nmemb 0 nmemb

/-- Method `CRFSOutputPin::FindStartPart`: the returned `int` and the new value of the
one-entry cache `m_prev_part`. -/
def FindStartPart (m_file : File) (m_prev_part : Option Nat) (position : Int) :
    Int × Option Nat :=
  if position > m_file.size then (-1, m_prev_part)
  else
    let hit : Bool :=
      match m_prev_part with
      | none => false
      | some i =>
        match m_file.array[i]? with
        | none => false
        | some p => compare position p == 0
    if hit then
      match m_prev_part with
      | some i => ((i : Int), m_prev_part)
      | none => (-1, m_prev_part)
    else
      match bsearch position m_file.array m_file.parts with
      | none => (-1, none)
      | some i => ((i : Int), some i)

/-- The table starts at `start`, every part begins where the previous one
ends, and every size is positive. -/
def contiguousFrom (start : Int) : List FilePart → Prop
  | [] => True
  | p :: ps => p.in_file_offset = start ∧ 0 < p.size ∧ contiguousFrom (start + p.size) ps

/-- Sum of the part sizes. -/
def totalSize : List FilePart → Int
  | [] => 0
  | p :: ps => p.size + totalSize ps

/-- A loaded file whose table is contiguous from virtual offset 0 and whose
size is the sum of the part sizes. -/
def File.wellFormed (f : File) : Prop :=
  contiguousFrom 0 f.array ∧ f.size = totalSize f.array

/-- The cache is `NULL` or points at an element of the table. -/
def cacheValid (f : File) (c : Option Nat) : Prop :=
  ∀ i, c = some i → i < f.parts

/-- Part `i` covers the position `o`. -/
def covers (f : File) (i : Nat) (o : Int) : Prop :=
  ∃ p, f.array[i]? = some p ∧ p.in_file_offset ≤ o ∧ o < p.in_file_offset + p.size

/-! ## Samples and sample conversion -/

/-- The part of an `IMediaSample` the pin uses: the object's address, what
`GetTime` and `GetPointer` answer, and the value last passed to
`SetActualDataLength`.  `SetTime` overwrites `stop`. -/
structure IMediaSample where
  addr : Nat
  getTimeResult : HRESULT
  start : Int
  stop : Int
  getPointerResult : HRESULT
  pointer : Nat
  actualDataLength : Int
deriving DecidableEq, Repr

/-- The locals `llPosition`, `lLength`, `pBuffer` of `Request` and
`SyncReadAligned`, which `ConvertSample` fills through its out-parameters. -/
structure Locals where
  llPosition : Int
  lLength : Nat
  pBuffer : Nat
deriving DecidableEq, Repr

/-- The expression `(llTotal + m_align - 1) & ~((LONGLONG) (m_align - 1))`
on 64-bit patterns. -/
def alignUp (m_align : Nat) (llTotal : Int) : Int :=
  toI64 (toU64 (llTotal + (m_align : Int) - 1) &&&
    (18446744073709551615 - toU64 ((m_align : Int) - 1)))

/-- Modelled from the spec: `IsAligned` is declared in the header
`OutputPin.h`, which is not among the sources.  A position, length or buffer
address is aligned when it is a multiple of the allocator alignment. -/
def IsAligned (m_align : Nat) (l : Int) : Bool := l % (m_align : Int) == 0

/-- Method `CRFSOutputPin::ConvertSample`.  The last argument holds what the three
out-parameters contain on entry; they are written only on the `S_OK` path.
The callers pass the addresses of locals for `pos`, `length` and `buffer`, so
only `sample` can be `NULL`.  Returns the result, the sample after a possible
`SetTime`, and the out-parameters. -/
def ConvertSample (m_align : Nat) (m_file : File) (sample : Option IMediaSample)
    (out : Locals) : HRESULT × Option IMediaSample × Locals :=
  match sample with
  | none => (E_POINTER, none, out)
  | some smp =>
    if FAILED smp.getTimeResult then (smp.getTimeResult, some smp, out)
    else if smp.start < 0 then (E_UNEXPECTED, some smp, out)
    else
      let llPos := Int.tdiv smp.start UNITS
      let llLength := Int.tdiv (smp.stop - smp.start) UNITS
      if llLength < 0 ∨ llLength > LONG_MAX then (E_UNEXPECTED, some smp, out)
      else
        let lLength : Nat := toDWORD llLength
        let llTotal := m_file.size
        if llPos > llTotal then (ERROR_HANDLE_EOF, some smp, out)
        else
          let clipped : Nat × IMediaSample :=
            if llPos + (lLength : Int) > llTotal then
              let llTotal2 := alignUp m_align llTotal
              if llPos + (lLength : Int) > llTotal2 then
                (toDWORD (llTotal2 - llPos), { smp with stop := llTotal2 * UNITS })
              else (lLength, smp)
            else (lLength, smp)
          if FAILED smp.getPointerResult then (smp.getPointerResult, some clipped.2, out)
          else (S_OK, some clipped.2,
            { llPosition := llPos, lLength := clipped.1, pBuffer := smp.pointer })

/-! ## Requests, sub-requests and the pin -/

/-- The `OVERLAPPED` fields the pin sets. -/
structure OVERLAPPED where
  hEvent : Nat
  Offset : Nat
  OffsetHigh : Nat
deriving DecidableEq, Repr

/-- The file position an `OVERLAPPED` designates. -/
def OVERLAPPED.position (o : OVERLAPPED) : Nat := o.OffsetHigh * 4294967296 + o.Offset

/-- Modelled from the spec: `SubRequest` is declared in the header
`OutputPin.h`, which is not among the sources.  One physical read against one
part: the part's file, the expected byte count and the completion signal. -/
structure SubRequest where
  file : Nat
  expected : Nat
  o : OVERLAPPED
deriving DecidableEq, Repr

/-- Modelled from the spec: `ReadRequest` is declared in the header
`OutputPin.h`, which is not among the sources.  One client read: the caller's
token, the sample, the ordered list of sub-requests and their count. -/
structure ReadRequest where
  dwUser : Nat
  pSample : Option IMediaSample
  count : Nat
  subreqs : List SubRequest
deriving DecidableEq, Repr

/-- Modelled from the spec: the container `List` (header `List.h`) is not
among the sources.  An ordered list; `InsertFirst` adds at the front. -/
def InsertFirst {α : Type} (l : List α) (x : α) : List α := x :: l

/-- Modelled from the spec: `InsertLast` of the container `List` adds at the
back. -/
def InsertLast {α : Type} (l : List α) (x : α) : List α := l ++ [x]

/-- Modelled from the spec: `UnlinkLast` of the container `List` removes the
back element and returns it, or returns `NULL` on an empty list. -/
def UnlinkLast {α : Type} (l : List α) : Option α × List α := (l.getLast?, l.dropLast)

/-- Modelled from the spec: `UnlinkFirst` of the container `List` removes the
front element and returns it, or returns `NULL` on an empty list. -/
def UnlinkFirst {α : Type} (l : List α) : Option α × List α := (l.head?, l.tail)

/-- The members of `CRFSOutputPin` the read engine uses.  `m_event` is the
auto-reset wake-up event: `none` for `INVALID_HANDLE_VALUE`, otherwise whether
it is signalled. -/
structure CRFSOutputPin where
  m_align : Nat
  m_file : Option File
  m_flush : Bool
  m_event : Option Bool
  m_prev_part : Option Nat
  m_requests : List ReadRequest
deriving DecidableEq, Repr

/-- One call of `ReadFile`: the file, the destination address, the byte count
and the position given in the `OVERLAPPED`. -/
structure PhysRead where
  file : Nat
  buffer : Nat
  count : Nat
  Offset : Nat
  OffsetHigh : Nat
deriving DecidableEq, Repr

/-- The file position of a physical read. -/
def PhysRead.position (r : PhysRead) : Nat := r.OffsetHigh * 4294967296 + r.Offset

/-- The call `SetEvent` on the wake-up event. -/
def SetEvent (ev : Option Bool) : Option Bool := ev.map (fun _ => true)

/-! ## The asynchronous path -/

/-- What the system answers in one iteration of the loop of `Request`:
whether `new SubRequest` succeeds, the handle `CreateEvent` returns (0 for
`NULL`), and the outcome of `ReadFile` (`none` for `TRUE`, otherwise the
value of `GetLastError`). -/
structure SubEnv where
  allocOk : Bool
  hEvent : Nat
  readFile : Option Int

/-- What `Request` finds outside the pin: what its locals `llPosition`,
`lLength` and `pBuffer`, declared without initialiser, hold before
`ConvertSample` is called, whether `new ReadRequest` succeeds, and the answers
for each loop iteration. -/
structure RequestEnv where
  uninit : Locals
  allocOk : Bool
  sub : Nat → SubEnv

/-- The assignment `to_read = min (lLength, part->size - offset2)` of `Request`
and `SyncRead`: the macro `min` compares and selects as `LONGLONG`, and the
result is converted to `DWORD`. -/
def minToRead (lLength : Nat) (part : FilePart) (offset2 : Nat) : Nat :=
  toDWORD (if (lLength : Int) < part.size - (offset2 : Int) then (lLength : Int)
           else part.size - (offset2 : Int))

/-- The `while (true)` loop of `Request`.  The first list is the table from
`part` onwards, so `part ++` is its tail and `pos >= m_file->parts` is the
tail being empty; `k` counts the iterations. -/
def requestLoop (sub : Nat → SubEnv) (pBuffer : Nat) :
    List FilePart → Nat → Nat → Int → Nat → Nat → ReadRequest → List PhysRead →
      HRESULT × ReadRequest × List PhysRead
  | [], _, _, _, _, _, request, reads => (S_FALSE, request, reads)
  | part :: rest, k, offset2, offset, lLength, acc, request, reads =>
    if !(sub k).allocOk then (E_OUTOFMEMORY, request, reads)
    else
      let to_read : Nat := minToRead lLength part offset2
      let o : OVERLAPPED :=
        { hEvent := (sub k).hEvent
          Offset := toU64 offset % 4294967296
          OffsetHigh := toU64 offset / 4294967296 }
      let sr : SubRequest := { file := part.file, expected := to_read, o := o }
      let request1 : ReadRequest :=
        { request with subreqs := InsertLast request.subreqs sr, count := request.count + 1 }
      if (sub k).hEvent = 0 then (S_FALSE, request1, reads)
      else
        let reads1 := reads ++ [{ file := part.file, buffer := pBuffer + acc, count := to_read,
                                  Offset := o.Offset, OffsetHigh := o.OffsetHigh }]
        let bad : Bool :=
          match (sub k).readFile with
          | none => false
          | some err => err != ERROR_IO_PENDING && err != ERROR_HANDLE_EOF
        if bad then (S_FALSE, request1, reads1)
        else
          let lLength1 := toDWORD ((lLength : Int) - (to_read : Int))
          let acc1 := toDWORD ((acc : Int) + (to_read : Int))
          if lLength1 ≤ 0 then (S_OK, request1, reads1)
          else
            match rest with
            | [] => (S_FALSE, request1, reads1)
            | next :: _ =>
              requestLoop sub pBuffer rest (k + 1) 0 next.in_rar_offset lLength1 acc1
                request1 reads1

/-- What `Request` returns and leaves behind: the result, the pin, the sample
after a possible `SetTime`, and the physical reads issued, in order. -/
structure RequestResult where
  hr : HRESULT
  pin : CRFSOutputPin
  sample : Option IMediaSample
  reads : List PhysRead

/-- Method `CRFSOutputPin::Request`.  On every early return the anchor deletes the
request under construction, so the pending queue is only touched on the
`S_OK` path. -/
def Request (pin : CRFSOutputPin) (env : RequestEnv) (pSample : Option IMediaSample)
    (dwUser : Nat) : RequestResult :=
  if pin.m_flush then { hr := VFW_E_WRONG_STATE, pin := pin, sample := pSample, reads := [] }
  else
    match pin.m_file with
    | none => { hr := E_UNEXPECTED, pin := pin, sample := pSample, reads := [] }
    | some f =>
      let cs := ConvertSample pin.m_align f pSample env.uninit
      let loc := cs.2.2
      if FAILED cs.1 then { hr := cs.1, pin := pin, sample := cs.2.1, reads := [] }
      else if !(IsAligned pin.m_align loc.llPosition && IsAligned pin.m_align (loc.lLength : Int)
                && IsAligned pin.m_align (loc.pBuffer : Int)) then
        { hr := VFW_E_BADALIGN, pin := pin, sample := cs.2.1, reads := [] }
      else
        let fsp := FindStartPart f pin.m_prev_part loc.llPosition
        let pin1 := { pin with m_prev_part := fsp.2 }
        if fsp.1 == -1 then { hr := S_FALSE, pin := pin1, sample := cs.2.1, reads := [] }
        else if !env.allocOk then
          { hr := E_OUTOFMEMORY, pin := pin1, sample := cs.2.1, reads := [] }
        else
          let request : ReadRequest :=
            { dwUser := dwUser, pSample := cs.2.1, count := 0, subreqs := [] }
          match f.array.drop fsp.1.toNat with
          | [] => { hr := S_FALSE, pin := pin1, sample := cs.2.1, reads := [] }
          | part :: rest =>
            let offset2 := toDWORD (loc.llPosition - part.in_file_offset)
            let offset := part.in_rar_offset + (offset2 : Int)
            let lp := requestLoop env.sub loc.pBuffer (part :: rest) 0 offset2 offset
                        loc.lLength 0 request []
            if lp.1 == S_OK then
              { hr := S_OK
                pin := { pin1 with m_requests := InsertFirst pin1.m_requests lp.2.1
                                   m_event := SetEvent pin1.m_event }
                sample := cs.2.1
                reads := lp.2.2 }
            else { hr := lp.1, pin := pin1, sample := cs.2.1, reads := lp.2.2 }

def BeginFlush (pin : CRFSOutputPin) : HRESULT × CRFSOutputPin :=
  (S_OK, { pin with m_flush := true, m_event := SetEvent pin.m_event })

def EndFlush (pin : CRFSOutputPin) : HRESULT × CRFSOutputPin :=
  (S_OK, { pin with m_flush := false })

/-- What `WaitForNext` returns and leaves behind.  `ppSample` and `pdwUser`
are the two out-pointers: `none` for a `NULL` pointer, otherwise the contents
of the cell pointed at.  `cancelled` lists the files given to `CancelIo`. -/
structure WaitResult where
  hr : HRESULT
  ppSample : Option (Option IMediaSample)
  pdwUser : Option Nat
  pin : CRFSOutputPin
  cancelled : List Nat
deriving DecidableEq, Repr

/-- Method `CRFSOutputPin::DoFlush`, called with non-`NULL` out-pointers; `user0` is
what the cell behind `pdwUser` holds on entry. -/
def DoFlush (pin : CRFSOutputPin) (user0 : Nat) : WaitResult :=
  match UnlinkLast pin.m_requests with
  | (none, rest) =>
    { hr := VFW_E_TIMEOUT, ppSample := some none, pdwUser := some user0,
      pin := { pin with m_requests := rest }, cancelled := [] }
  | (some rr, rest) =>
    { hr := VFW_E_TIMEOUT, ppSample := some rr.pSample, pdwUser := some rr.dwUser,
      pin := { pin with m_requests := rest },
      cancelled := rr.subreqs.reverse.map (fun sr => sr.file) }

def WAIT_OBJECT_0 : Nat := 0
def WAIT_TIMEOUT : Nat := 258
def WAIT_FAILED : Nat := 4294967295

/-- A call either returns or waits for ever. -/
inductive Outcome (α : Type) where
  | returned (a : α)
  | blocked
deriving DecidableEq, Repr

/-- The call `WaitForSingleObject` on the auto-reset wake-up event while no other
thread runs: a signalled event is consumed, an unsignalled one times out
after a finite timeout and is waited on for ever with `INFINITE`. -/
def WaitForSingleObject (ev : Option Bool) (dwTimeout : Nat) : Outcome (Nat × Option Bool) :=
  match ev with
  | none => .returned (WAIT_FAILED, none)
  | some true => .returned (WAIT_OBJECT_0, some false)
  | some false =>
    if dwTimeout = INFINITE then .blocked else .returned (WAIT_TIMEOUT, some false)

/-- What `WaitForNext` finds outside the pin once it holds a request: the
value `WaitForMultipleObjects` returns, and for the k-th sub-request unlinked
the answer of `GetOverlappedResult` (success, bytes transferred). -/
structure WaitEnv where
  waitAll : Nat
  overlapped : Nat → Bool × Nat

/-- The loop of `WaitForNext` over `rr->subreqs.UnlinkFirst ()`: the
accumulated byte count and the result. -/
def collectLoop (overlapped : Nat → Bool × Nat) :
    List SubRequest → Nat → Nat → HRESULT → Nat × HRESULT
  | [], _, acc, ret => (acc, ret)
  | sr :: rest, k, acc, ret =>
    let read := (overlapped k).2
    if !(overlapped k).1 then (toDWORD ((acc : Int) + (read : Int)), S_FALSE)
    else
      let acc1 := toDWORD ((acc : Int) + (read : Int))
      if read ≠ sr.expected then (acc1, S_FALSE)
      else collectLoop overlapped rest (k + 1) acc1 ret

/-- The part of `WaitForNext` after a request `rr` has been unlinked; `pin`
holds the queue without `rr`. -/
def waitOnRequest (pin : CRFSOutputPin) (env : WaitEnv) (rr : ReadRequest)
    (sample0 : Option IMediaSample) (user0 : Nat) : WaitResult :=
  if env.waitAll = WAIT_TIMEOUT then
    { hr := VFW_E_TIMEOUT, ppSample := some sample0, pdwUser := some user0,
      pin := { pin with m_requests := InsertLast pin.m_requests rr }, cancelled := [] }
  else if env.waitAll = WAIT_FAILED then
    { hr := E_FAIL, ppSample := some rr.pSample, pdwUser := some rr.dwUser,
      pin := pin, cancelled := [] }
  else
    let c := collectLoop env.overlapped rr.subreqs 0 0 S_OK
    { hr := c.2
      ppSample := some (rr.pSample.map (fun s => { s with actualDataLength := toLONG c.1 }))
      pdwUser := some rr.dwUser
      pin := pin, cancelled := [] }

/-- The `while (!rr)` loop of `WaitForNext`, entered with an empty queue.  The
first argument bounds the number of iterations; `none` means the bound was
reached. -/
def waitLoop (env : WaitEnv) (dwTimeout : Nat) (sample0 : Option IMediaSample) (user0 : Nat) :
    Nat → CRFSOutputPin → Option (Outcome WaitResult)
  | 0, _ => none
  | fuel + 1, pin =>
    match WaitForSingleObject pin.m_event dwTimeout with
    | .blocked => some .blocked
    | .returned (r, ev) =>
      let pin1 := { pin with m_event := ev }
      if pin1.m_flush then some (.returned (DoFlush pin1 user0))
      else if r = WAIT_TIMEOUT then
        some (.returned { hr := VFW_E_TIMEOUT, ppSample := some sample0, pdwUser := some user0,
                          pin := pin1, cancelled := [] })
      else if r = WAIT_FAILED then
        some (.returned { hr := E_FAIL, ppSample := some sample0, pdwUser := some user0,
                          pin := pin1, cancelled := [] })
      else
        match UnlinkLast pin1.m_requests with
        | (none, rest) => waitLoop env dwTimeout sample0 user0 fuel { pin1 with m_requests := rest }
        | (some rr, rest) =>
          some (.returned (waitOnRequest { pin1 with m_requests := rest } env rr sample0 user0))

/-- Method `CRFSOutputPin::WaitForNext`.  The out-pointers are `none` for `NULL`,
otherwise the current contents of their cells.  With no other thread running
the wake-up loop makes at most two iterations. -/
def WaitForNext (pin : CRFSOutputPin) (env : WaitEnv) (dwTimeout : Nat)
    (ppSample : Option (Option IMediaSample)) (pdwUser : Option Nat) :
    Option (Outcome WaitResult) :=
  match ppSample, pdwUser with
  | some sample0, some user0 =>
    if pin.m_flush then some (.returned (DoFlush pin user0))
    else
      match UnlinkLast pin.m_requests with
      | (some rr, rest) =>
        some (.returned (waitOnRequest { pin with m_requests := rest } env rr sample0 user0))
      | (none, rest) => waitLoop env dwTimeout sample0 user0 2 { pin with m_requests := rest }
  | _, _ =>
    some (.returned { hr := E_POINTER, ppSample := ppSample, pdwUser := pdwUser,
                      pin := pin, cancelled := [] })

/-! ## The blocking path -/

/-- What `SyncRead` finds outside the pin: the handle `CreateEvent` returns
(0 for `NULL`), and for the k-th loop iteration the outcome of `ReadFile`
(`none` for `TRUE`, otherwise the value of `GetLastError`) and of
`GetOverlappedResult` (success, bytes transferred). -/
structure SyncEnv where
  hEvent : Nat
  readFile : Nat → Option Int
  overlapped : Nat → Bool × Nat

/-- The k-th `ReadFile` of `SyncRead` fails with an error other than
`ERROR_IO_PENDING`. -/
def SyncEnv.readFails (env : SyncEnv) (k : Nat) : Bool :=
  match env.readFile k with
  | none => false
  | some err => err != ERROR_IO_PENDING

/-- The `while (true)` loop of `SyncRead`: the result, the value of `acc` on
return and the physical reads issued. -/
def syncLoop (env : SyncEnv) (pBuffer : Nat) :
    List FilePart → Nat → Nat → Int → Nat → Nat → List PhysRead →
      HRESULT × Nat × List PhysRead
  | [], _, _, _, _, acc, reads => (S_FALSE, acc, reads)
  | part :: rest, k, offset2, offset, lLength, acc, reads =>
    let to_read : Nat := minToRead lLength part offset2
    let reads1 := reads ++ [{ file := part.file, buffer := pBuffer + acc, count := to_read,
                              Offset := toU64 offset % 4294967296,
                              OffsetHigh := toU64 offset / 4294967296 }]
    if env.readFails k then (S_FALSE, acc, reads1)
    else if !(env.overlapped k).1 then (S_FALSE, acc, reads1)
    else
      let read := (env.overlapped k).2
      let lLength1 := toDWORD ((lLength : Int) - (read : Int))
      let acc1 := toDWORD ((acc : Int) + (read : Int))
      if lLength1 = 0 then (S_OK, acc1, reads1)
      else
        match rest with
        | [] => (S_FALSE, acc1, reads1)
        | next :: _ =>
          syncLoop env pBuffer rest (k + 1) 0 next.in_rar_offset lLength1 acc1 reads1

/-- What `SyncRead` returns and leaves behind: the result, the cell behind
`cbActual` (`none` for a `NULL` pointer), the locator cache and the physical
reads issued. -/
structure SyncResult where
  hr : HRESULT
  cbActual : Option Int
  m_prev_part : Option Nat
  reads : List PhysRead

/-- Method `CRFSOutputPin::SyncRead (LONGLONG, DWORD, BYTE*, LONG*)`. -/
def SyncRead (pin : CRFSOutputPin) (env : SyncEnv) (llPosition : Int) (lLength : Nat)
    (pBuffer : Option Nat) (cbActual : Option Int) : SyncResult :=
  match pin.m_file with
  | none => { hr := E_UNEXPECTED, cbActual := cbActual, m_prev_part := pin.m_prev_part, reads := [] }
  | some f =>
    match pBuffer with
    | none => { hr := E_POINTER, cbActual := cbActual, m_prev_part := pin.m_prev_part, reads := [] }
    | some buf =>
      let fsp := FindStartPart f pin.m_prev_part llPosition
      if fsp.1 == -1 then
        { hr := ERROR_HANDLE_EOF, cbActual := cbActual, m_prev_part := fsp.2, reads := [] }
      else
        match f.array.drop fsp.1.toNat with
        | [] => { hr := S_FALSE, cbActual := cbActual, m_prev_part := fsp.2, reads := [] }
        | part :: rest =>
          let offset2 := toDWORD (llPosition - part.in_file_offset)
          let offset := part.in_rar_offset + (offset2 : Int)
          if env.hEvent = 0 then
            { hr := S_FALSE, cbActual := cbActual, m_prev_part := fsp.2, reads := [] }
          else
            let lp := syncLoop env buf (part :: rest) 0 offset2 offset lLength 0 []
            { hr := lp.1, cbActual := cbActual.map (fun _ => toLONG lp.2.1),
              m_prev_part := fsp.2, reads := lp.2.2 }

/-! ## Sequences of calls -/

/-- One call of `Request` by a client: the system's answers, the sample and
the token. -/
structure RequestCall where
  env : RequestEnv
  pSample : Option IMediaSample
  dwUser : Nat

/-- One call of `WaitForNext` by the consumer: the system's answers, the
timeout, and what the cells behind `ppSample` and `pdwUser` hold on entry. -/
structure WaitCall where
  env : WaitEnv
  dwTimeout : Nat
  sample0 : Option IMediaSample
  user0 : Nat

/-- Consecutive calls of `Request`, each on the pin the previous one left:
the results in order and the final pin. -/
def runRequests : CRFSOutputPin → List RequestCall → List HRESULT × CRFSOutputPin
  | pin, [] => ([], pin)
  | pin, c :: cs =>
    ((Request pin c.env c.pSample c.dwUser).hr ::
        (runRequests (Request pin c.env c.pSample c.dwUser).pin cs).1,
      (runRequests (Request pin c.env c.pSample c.dwUser).pin cs).2)

/-- Consecutive calls of `WaitForNext`, each on the pin the previous one left:
every call that returned with its result, in order, and the final pin.  The
run ends at a call that does not return. -/
def runWaits : CRFSOutputPin → List WaitCall → List (WaitCall × WaitResult) × CRFSOutputPin
  | pin, [] => ([], pin)
  | pin, c :: cs =>
    match WaitForNext pin c.env c.dwTimeout (some c.sample0) (some c.user0) with
    | some (.returned r) => ((c, r) :: (runWaits r.pin cs).1, (runWaits r.pin cs).2)
    | _ => ([], pin)

/-- What a call of `WaitForNext` that returned gave its caller: the result and
the contents of the cells behind `pdwUser` and `ppSample`. -/
def handedOver : Option (Outcome WaitResult) →
    Option (HRESULT × Option Nat × Option (Option IMediaSample))
  | some (.returned r) => some (r.hr, r.pdwUser, r.ppSample)
  | _ => none

/-- The tokens handed back by the calls of a run whose wait on the sub-reads
did not time out. -/
def handedBack (trace : List (WaitCall × WaitResult)) : List (Option Nat) :=
  (trace.filter (fun cr => decide (cr.1.env.waitAll ≠ WAIT_TIMEOUT))).map (fun cr => cr.2.pdwUser)

/-- Number of calls whose wait on the sub-reads does not time out. -/
def completions (waits : List WaitCall) : Nat :=
  (waits.filter (fun c => decide (c.env.waitAll ≠ WAIT_TIMEOUT))).length

/-! ## Notions used to state the properties -/

/-- Sum of the expected byte counts of a list of sub-requests. -/
def expectedSum (l : List SubRequest) : Nat := (l.map (fun sr => sr.expected)).sum

/-- Every part of the list has a positive size. -/
def positiveSizes (ps : List FilePart) : Prop := ∀ p, p ∈ ps → 0 < p.size

/-- The in-part offset `offset2` lies inside the first part of the list. -/
def insideFirst (ps : List FilePart) (offset2 : Nat) : Prop :=
  match ps with
  | [] => True
  | p :: _ => (offset2 : Int) < p.size

/-- Every sub-request of the list, the first being the k-th one unlinked,
completes successfully and delivers exactly its expected byte count. -/
def fullDelivery (overlapped : Nat → Bool × Nat) : List SubRequest → Nat → Bool
  | [], _ => true
  | sr :: rest, k =>
    (overlapped k).1 && (overlapped k).2 == sr.expected && fullDelivery overlapped rest (k + 1)

/-- The system lets every step of `Request` through: the allocations and
`CreateEvent` succeed, and every `ReadFile` returns `TRUE` or fails with
`ERROR_IO_PENDING` or `ERROR_HANDLE_EOF`. -/
def RequestEnv.benign (env : RequestEnv) : Prop :=
  env.allocOk = true ∧
  ∀ k, (env.sub k).allocOk = true ∧ (env.sub k).hEvent ≠ 0 ∧
    ((env.sub k).readFile = none ∨ (env.sub k).readFile = some ERROR_IO_PENDING ∨
      (env.sub k).readFile = some ERROR_HANDLE_EOF)

/-- Every read of the log (the first being the k-th one issued) that
completes delivers exactly the byte count asked of it; a read may also fail. -/
def fullReads (env : SyncEnv) : List PhysRead → Nat → Bool
  | [], _ => true
  | r :: rest, k =>
    (env.readFails k || !(env.overlapped k).1 || (env.overlapped k).2 == r.count) &&
      fullReads env rest (k + 1)

/-- Every read of the log (the first being the k-th one issued) completes
without an error and delivers at most the byte count asked of it. -/
def cleanReads (env : SyncEnv) : List PhysRead → Nat → Bool
  | [], _ => true
  | r :: rest, k =>
    !env.readFails k && (env.overlapped k).1 && decide ((env.overlapped k).2 ≤ r.count) &&
      cleanReads env rest (k + 1)

/-- Sum of the byte counts delivered by the reads of the log, the first being
the k-th one issued. -/
def delivered (env : SyncEnv) : List PhysRead → Nat → Nat
  | [], _ => 0
  | _ :: rest, k => (env.overlapped k).2 + delivered env rest (k + 1)

/-- The reads tile the virtual range that starts at `v`, part by part: the
k-th read goes to the k-th part of the list, that part contains the virtual
start of the read, the physical position is the part's base plus the offset
inside the part, the destination is `dest` advanced by the bytes of the
earlier reads, the read stays inside its part, and the next read starts where
this one ends. -/
def tilesFrom : List FilePart → Int → Nat → List PhysRead → Prop
  | _, _, _, [] => True
  | [], _, _, _ :: _ => False
  | p :: ps, v, dest, r :: rs =>
    r.file = p.file ∧ p.in_file_offset ≤ v ∧ v < p.in_file_offset + p.size ∧
    (r.position : Int) = p.in_rar_offset + (v - p.in_file_offset) ∧
    r.buffer = dest ∧ v + (r.count : Int) ≤ p.in_file_offset + p.size ∧
    tilesFrom ps (v + (r.count : Int)) (dest + r.count) rs

/-- Sum of the byte counts of the reads. -/
def countSum (reads : List PhysRead) : Nat := (reads.map (fun r => r.count)).sum

/-- Every part lies in the non-negative 63-bit range of its physical file. -/
def physicalRange (ps : List FilePart) : Prop :=
  ∀ p, p ∈ ps → 0 ≤ p.in_rar_offset ∧ p.in_rar_offset + p.size < 9223372036854775808

/-- At the head of the loop `offset` is the physical position of in-part
offset `offset2` of the first part. -/
def startsAt (ps : List FilePart) (offset2 : Nat) (offset : Int) : Prop :=
  match ps with
  | [] => True
  | p :: _ => offset = p.in_rar_offset + (offset2 : Int)

/-! ## Concrete inputs -/

/-- A file of two parts: A covers the virtual range [0, 100) and B covers
[100, 150); each lies 20 bytes into its physical file. -/
def fileAB : File :=
  { size := 150
    array := [{ file := 1, in_rar_offset := 20, in_file_offset := 0, size := 100 },
              { file := 2, in_rar_offset := 20, in_file_offset := 100, size := 50 }] }

/-- A pin with `fileAB` loaded, the given alignment, an empty queue and an
empty locator cache; not flushing. -/
def pinAB (m_align : Nat) : CRFSOutputPin :=
  { m_align := m_align, m_file := some fileAB, m_flush := false, m_event := some false,
    m_prev_part := none, m_requests := [] }

/-- A system in which every allocation and `CreateEvent` succeeds and every
`ReadFile` reports `ERROR_IO_PENDING`; the locals of `Request` hold the given
values on entry. -/
def envOk (uninit : Locals) : RequestEnv :=
  { uninit := uninit
    allocOk := true
    sub := fun k => { allocOk := true, hEvent := k + 1, readFile := some ERROR_IO_PENDING } }

/-- A sample asking for the bytes from position `a` up to position `b`, with
its buffer at address 4096. -/
def sampleOf (a b : Int) : IMediaSample :=
  { addr := 1, getTimeResult := S_OK, start := a * UNITS, stop := b * UNITS,
    getPointerResult := S_OK, pointer := 4096, actualDataLength := 0 }

/-- A file whose first part is larger than 4 GiB: A covers the virtual range
[0, 4294967396) and B covers [4294967396, 4294967446). -/
def fileBig : File :=
  { size := 4294967446
    array := [{ file := 1, in_rar_offset := 20, in_file_offset := 0, size := 4294967396 },
              { file := 2, in_rar_offset := 20, in_file_offset := 4294967396, size := 50 }] }

/-- A pin with `fileBig` loaded, alignment 1, an empty queue and an empty
locator cache; not flushing. -/
def pinBig : CRFSOutputPin :=
  { m_align := 1, m_file := some fileBig, m_flush := false, m_event := some false,
    m_prev_part := none, m_requests := [] }

/-- A consumer call with the given outcome of the wait on the sub-reads, in
which every sub-read that is collected delivers `n` bytes. -/
def waitCall (waitAll n : Nat) : WaitCall :=
  { env := { waitAll := waitAll, overlapped := fun _ => (true, n) }
    dwTimeout := 0, sample0 := none, user0 := 0 }

/-- A client call asking for the bytes [a, b) with the given token. -/
def requestCall (a b : Int) (tok : Nat) : RequestCall :=
  { env := envOk ⟨0, 0, 0⟩, pSample := some (sampleOf a b), dwUser := tok }

/-- A system for `SyncRead` in which no call fails, the first read delivers
`n0` bytes and every later one `n1` bytes. -/
def syncEnv (n0 n1 : Nat) : SyncEnv :=
  { hEvent := 9
    readFile := fun _ => some ERROR_IO_PENDING
    overlapped := fun k => if k = 0 then (true, n0) else (true, n1) }

/-- The pin `pinAB 1` after two accepted requests, for [0, 10) with token 7
and then for [10, 20) with token 8. -/
def pinQ2 : CRFSOutputPin :=
  (runRequests (pinAB 1) [requestCall 0 10 7, requestCall 10 20 8]).2

/-! ## Facts about contiguous tables -/

theorem contiguous_bounds (ps : List FilePart) : ∀ (s : Int), contiguousFrom s ps →
    ∀ (i : Nat) (p : FilePart), ps[i]? = some p →
      s ≤ p.in_file_offset ∧ 0 < p.size ∧ p.in_file_offset + p.size ≤ s + totalSize ps := by
  induction ps with
  | nil => intro s _ i p h; simp at h
  | cons q qs ih =>
    intro s hc i p h
    obtain ⟨h1, h2, h3⟩ := hc
    have hnn : ∀ (t : Int), contiguousFrom t qs → 0 ≤ totalSize qs := by
      intro t ht
      cases qs with
      | nil => simp [totalSize]
      | cons r rs =>
        have := ih t ht 0 r (by simp)
        have h0 := ht.1
        simp only [totalSize] at this ⊢
        omega
    cases i with
    | zero =>
      simp at h
      subst h
      have := hnn _ h3
      simp only [totalSize]
      omega
    | succ k =>
      simp at h
      have := ih _ h3 k p h
      simp only [totalSize]
      omega

theorem contiguous_ordered (ps : List FilePart) : ∀ (s : Int), contiguousFrom s ps →
    ∀ (i j : Nat) (p q : FilePart), i < j → ps[i]? = some p → ps[j]? = some q →
      p.in_file_offset + p.size ≤ q.in_file_offset := by
  induction ps with
  | nil => intro s _ i j p q _ h; simp at h
  | cons r rs ih =>
    intro s hc i j p q hij hp hq
    obtain ⟨h1, h2, h3⟩ := hc
    cases j with
    | zero => omega
    | succ j' =>
      simp at hq
      cases i with
      | zero =>
        simp at hp
        subst hp
        have := contiguous_bounds rs _ h3 j' q hq
        omega
      | succ i' =>
        simp at hp
        exact ih _ h3 i' j' p q (by omega) hp hq

theorem contiguous_exists (ps : List FilePart) : ∀ (s : Int), contiguousFrom s ps →
    ∀ o, s ≤ o → o < s + totalSize ps →
      ∃ (i : Nat) (p : FilePart),
        ps[i]? = some p ∧ p.in_file_offset ≤ o ∧ o < p.in_file_offset + p.size := by
  induction ps with
  | nil => intro s _ o h1 h2; simp [totalSize] at h2; omega
  | cons r rs ih =>
    intro s hc o h1 h2
    obtain ⟨c1, c2, c3⟩ := hc
    by_cases h : o < s + r.size
    · exact ⟨0, r, by simp, by omega, by omega⟩
    · obtain ⟨i, p, hp, hlo, hhi⟩ := ih _ c3 o (by omega) (by simp only [totalSize] at h2; omega)
      exact ⟨i + 1, p, by simpa using hp, hlo, hhi⟩

/-! ## Facts about the search -/

theorem bsearchLoop_sound (key : Int) (base : List FilePart) :
    ∀ (fuel lo hi i : Nat), bsearchLoop key base fuel lo hi = some i →
      ∃ p, base[i]? = some p ∧ compare key p = 0 := by
  intro fuel
  induction fuel with
  | zero => intro lo hi i h; simp [bsearchLoop] at h
  | succ n ih =>
    intro lo hi i h
    unfold bsearchLoop at h
    split at h
    · simp only at h
      split at h
      · simp at h
      · rename_i p hp
        split at h
        · exact ih _ _ _ h
        · split at h
          · exact ih _ _ _ h
          · simp at h
            subst h
            exact ⟨p, hp, by omega⟩
    · simp at h

theorem bsearchLoop_complete (key : Int) (base : List FilePart) (t : Nat)
    (hbelow : ∀ (i : Nat) (p : FilePart), i < t → base[i]? = some p → compare key p > 0)
    (habove : ∀ (i : Nat) (p : FilePart), t < i → base[i]? = some p → compare key p < 0)
    (hat : ∃ p, base[t]? = some p ∧ compare key p = 0) :
    ∀ (fuel lo hi : Nat), lo ≤ t → t < hi → hi ≤ base.length → hi - lo ≤ fuel →
      bsearchLoop key base fuel lo hi = some t := by
  intro fuel
  induction fuel with
  | zero => intro lo hi h1 h2 _ h4; omega
  | succ n ih =>
    intro lo hi h1 h2 h3 h4
    unfold bsearchLoop
    rw [if_pos (by omega)]
    simp only
    have hmid : lo + (hi - lo) / 2 < base.length := by omega
    obtain ⟨p, hp⟩ : ∃ p, base[lo + (hi - lo) / 2]? = some p :=
      ⟨base[lo + (hi - lo) / 2], by simp [hmid]⟩
    rw [hp]
    simp only
    obtain ⟨pt, hpt, hct⟩ := hat
    rcases Nat.lt_trichotomy (lo + (hi - lo) / 2) t with hlt | heq | hgt
    · have hc := hbelow _ p hlt hp
      rw [if_neg (by omega), if_pos hc]
      exact ih _ _ (by omega) h2 h3 (by omega)
    · rw [heq] at hp
      rw [hpt] at hp
      cases hp
      rw [if_neg (by omega), if_neg (by omega), heq]
    · have hc := habove _ p hgt hp
      rw [if_pos hc]
      exact ih _ _ h1 hgt (by omega) (by omega)

theorem covers_unique (f : File) (hwf : f.wellFormed) (i j : Nat) (o : Int)
    (hi : covers f i o) (hj : covers f j o) : j = i := by
  obtain ⟨p, hp, hp1, hp2⟩ := hi
  obtain ⟨q, hq, hq1, hq2⟩ := hj
  rcases Nat.lt_trichotomy i j with h | h | h
  · have := contiguous_ordered f.array 0 hwf.1 i j p q h hp hq
    omega
  · exact h.symm
  · have := contiguous_ordered f.array 0 hwf.1 j i q p h hq hp
    omega

theorem compare_eq_zero_iff (o : Int) (p : FilePart) :
    compare o p = 0 ↔ (p.in_file_offset ≤ o ∧ o < p.in_file_offset + p.size) := by
  unfold compare
  split
  · constructor
    · intro h; omega
    · intro h; omega
  · split
    · constructor
      · intro h; omega
      · intro h; omega
    · constructor
      · intro _; omega
      · intro _; rfl

theorem bsearch_finds (f : File) (hwf : f.wellFormed) (t : Nat) (o : Int)
    (ht : covers f t o) : bsearch o f.array f.parts = some t := by
  obtain ⟨pt, hpt, h1, h2⟩ := ht
  have htlen : t < f.array.length := by
    rcases Nat.lt_or_ge t f.array.length with h | h
    · exact h
    · rw [List.getElem?_eq_none h] at hpt; cases hpt
  unfold bsearch File.parts
  apply bsearchLoop_complete o f.array t
  · intro i p hit hp
    have := contiguous_ordered f.array 0 hwf.1 i t p pt hit hp hpt
    unfold compare
    rw [if_neg (by
      have := (contiguous_bounds f.array 0 hwf.1 i p hp).2.1
      omega), if_pos (by omega)]
    decide
  · intro i p hit hp
    have := contiguous_ordered f.array 0 hwf.1 t i pt p hit hpt hp
    unfold compare
    rw [if_pos (by omega)]
    decide
  · exact ⟨pt, hpt, (compare_eq_zero_iff o pt).2 ⟨h1, h2⟩⟩
  · omega
  · exact htlen
  · exact le_refl _
  · omega

theorem FindStartPart_of_covers (f : File) (hwf : f.wellFormed) (c : Option Nat) (t : Nat)
    (o : Int) (ht : covers f t o) : FindStartPart f c o = ((t : Int), some t) := by
  have hsz : ¬ o > f.size := by
    obtain ⟨pt, hpt, h1, h2⟩ := ht
    have := (contiguous_bounds f.array 0 hwf.1 t pt hpt).2.2
    have := hwf.2
    omega
  unfold FindStartPart
  rw [if_neg hsz]
  simp only
  cases c with
  | none => simp [bsearch_finds f hwf t o ht]
  | some i =>
    cases hget : f.array[i]? with
    | none => simp [hget, bsearch_finds f hwf t o ht]
    | some p =>
      by_cases hcmp : compare o p = 0
      · have hcov : covers f i o := ⟨p, hget, (compare_eq_zero_iff o p).1 hcmp⟩
        have := covers_unique f hwf t i o ht hcov
        subst this
        simp [hget, hcmp]
      · simp [hget, hcmp, bsearch_finds f hwf t o ht]

theorem FindStartPart_at_end (f : File) (hwf : f.wellFormed) (c : Option Nat) :
    FindStartPart f c f.size = (-1, none) := by
  have hno : ∀ (i : Nat) (p : FilePart), f.array[i]? = some p → compare f.size p = 1 := by
    intro i p hp
    have hb := contiguous_bounds f.array 0 hwf.1 i p hp
    have := hwf.2
    unfold compare
    rw [if_neg (by omega), if_pos (by omega)]
  have hbs : bsearch f.size f.array f.parts = none := by
    cases h : bsearch f.size f.array f.parts with
    | none => rfl
    | some i =>
      obtain ⟨p, hp, hc⟩ := bsearchLoop_sound _ _ _ _ _ _ h
      have := hno i p hp
      omega
  unfold FindStartPart
  rw [if_neg (by omega)]
  simp only
  cases c with
  | none => simp [hbs]
  | some i =>
    cases hget : f.array[i]? with
    | none => simp [hget, hbs]
    | some p => simp [hget, hno i p hget, hbs]

/-- C1: over a table that is contiguous from virtual offset 0 with positive
sizes and `size` the sum of the sizes, and for every state of the one-entry
cache (null or pointing into the table), `FindStartPart o` returns for
`0 ≤ o < size` the index of the unique part covering `o`, returns -1 for
`o = size`, and its result is the same whatever the cache held. -/
theorem FindStartPart_locates (f : File) (hwf : f.wellFormed) (c : Option Nat)
    (_ : cacheValid f c) :
    (∀ o : Int, 0 ≤ o → o < f.size →
      ∃ i : Nat, (FindStartPart f c o).1 = (i : Int) ∧ covers f i o ∧
        ∀ j : Nat, covers f j o → j = i) ∧
    (FindStartPart f c f.size).1 = -1 ∧
    (∀ c2 : Option Nat, cacheValid f c2 → ∀ o : Int, 0 ≤ o → o ≤ f.size →
      (FindStartPart f c2 o).1 = (FindStartPart f c o).1) := by
  refine ⟨?_, ?_, ?_⟩
  · intro o h0 h1
    obtain ⟨t, p, hp, hlo, hhi⟩ :=
      contiguous_exists f.array 0 hwf.1 o h0 (by have := hwf.2; omega)
    have hcov : covers f t o := ⟨p, hp, hlo, hhi⟩
    refine ⟨t, ?_, hcov, ?_⟩
    · rw [FindStartPart_of_covers f hwf c t o hcov]
    · intro j hj
      exact covers_unique f hwf t j o hcov hj
  · rw [FindStartPart_at_end f hwf c]
  · intro c2 _ o h0 h1
    rcases lt_or_eq_of_le h1 with h | h
    · obtain ⟨t, p, hp, hlo, hhi⟩ :=
        contiguous_exists f.array 0 hwf.1 o h0 (by have := hwf.2; omega)
      have hcov : covers f t o := ⟨p, hp, hlo, hhi⟩
      rw [FindStartPart_of_covers f hwf c t o hcov, FindStartPart_of_covers f hwf c2 t o hcov]
    · subst h
      rw [FindStartPart_at_end f hwf c, FindStartPart_at_end f hwf c2]

/-! ## Facts about the loop of `Request` -/

theorem toDWORD_lt (x : Int) : toDWORD x < 4294967296 := by
  unfold toDWORD; omega

theorem toDWORD_of_range (x : Int) (h0 : 0 ≤ x) (h1 : x < 4294967296) :
    ((toDWORD x : Nat) : Int) = x := by
  unfold toDWORD; omega

theorem toDWORD_sub (a b : Nat) (ha : a < 4294967296) (hb : b ≤ a) :
    toDWORD ((a : Int) - (b : Int)) = a - b := by
  unfold toDWORD; omega

theorem expectedSum_append (a b : List SubRequest) :
    expectedSum (a ++ b) = expectedSum a + expectedSum b := by
  simp [expectedSum]

theorem expectedSum_cons (a : SubRequest) (b : List SubRequest) :
    expectedSum (a :: b) = a.expected + expectedSum b := by
  simp [expectedSum]

theorem minToRead_spec (lLength : Nat) (part : FilePart) (offset2 : Nat)
    (hl : lLength < 4294967296) (hin : (offset2 : Int) < part.size) :
    minToRead lLength part offset2 ≤ lLength ∧
    ((minToRead lLength part offset2 : Nat) : Int) ≤ part.size - (offset2 : Int) ∧
    (minToRead lLength part offset2 < lLength →
      ((minToRead lLength part offset2 : Nat) : Int) = part.size - (offset2 : Int)) := by
  unfold minToRead toDWORD
  split <;> omega

theorem requestLoop_exact (sub : Nat → SubEnv) (pBuffer : Nat) (ps : List FilePart) :
    ∀ (k offset2 : Nat) (offset : Int) (lLength acc : Nat) (req : ReadRequest)
      (reads : List PhysRead) (out : HRESULT × ReadRequest × List PhysRead),
      lLength < 4294967296 → positiveSizes ps → insideFirst ps offset2 →
      requestLoop sub pBuffer ps k offset2 offset lLength acc req reads = out →
      out.2.1.dwUser = req.dwUser ∧ out.2.1.pSample = req.pSample ∧
      ∃ new : List SubRequest,
        out.2.1.subreqs = req.subreqs ++ new ∧
        out.2.1.count = req.count + new.length ∧
        expectedSum new ≤ lLength ∧
        (out.1 = S_OK → expectedSum new = lLength) := by
  induction ps with
  | nil =>
    intro k offset2 offset lLength acc req reads out _ _ _ h
    simp only [requestLoop] at h
    subst h
    refine ⟨rfl, rfl, [], by simp, by simp, by simp [expectedSum], ?_⟩
    intro h
    simp [S_OK, S_FALSE] at h
  | cons part rest ih =>
    intro k offset2 offset lLength acc req reads out hl hpos hin h
    have hsz : (offset2 : Int) < part.size := hin
    obtain ⟨hm1, hm2, hm3⟩ := minToRead_spec lLength part offset2 hl hsz
    unfold requestLoop at h
    by_cases ha : (sub k).allocOk = true
    swap
    · simp only [ha] at h
      subst h
      refine ⟨rfl, rfl, [], by simp, by simp, by simp [expectedSum], ?_⟩
      intro h
      simp [S_OK, E_OUTOFMEMORY] at h
    · simp only [ha, Bool.not_true, Bool.false_eq_true, if_false] at h
      by_cases he : (sub k).hEvent = 0
      · simp only [he, if_true] at h
        subst h
        refine ⟨rfl, rfl, [_], rfl, rfl, ?_, ?_⟩
        · simpa [expectedSum] using hm1
        · intro h
          simp [S_OK, S_FALSE] at h
      · simp only [he, if_false] at h
        split at h
        · subst h
          refine ⟨rfl, rfl, [_], rfl, rfl, ?_, ?_⟩
          · simpa [expectedSum] using hm1
          · intro h
            simp [S_OK, S_FALSE] at h
        · rw [toDWORD_sub lLength _ hl hm1] at h
          split at h
          · subst h
            refine ⟨rfl, rfl, [_], rfl, rfl, ?_, ?_⟩
            · simpa [expectedSum] using hm1
            · intro _
              simp only [expectedSum, List.map, List.sum_cons, List.sum_nil]
              omega
          · cases rest with
            | nil =>
              simp only at h
              subst h
              refine ⟨rfl, rfl, [_], rfl, rfl, ?_, ?_⟩
              · simpa [expectedSum] using hm1
              · intro h
                simp [S_OK, S_FALSE] at h
            | cons next tail =>
              simp only at h
              have hpos2 : positiveSizes (next :: tail) := by
                intro p hp
                exact hpos p (List.mem_cons_of_mem _ hp)
              have hin2 : insideFirst (next :: tail) 0 := by
                have := hpos next (by simp)
                simpa [insideFirst] using this
              obtain ⟨h1, h2, new, h3, h4, h5, h6⟩ :=
                ih (k + 1) 0 next.in_rar_offset _ _ _ _ out (by omega) hpos2 hin2 h
              refine ⟨h1, h2,
                ⟨part.file, minToRead lLength part offset2,
                  ⟨(sub k).hEvent, toU64 offset % 4294967296, toU64 offset / 4294967296⟩⟩ :: new,
                ?_, ?_, ?_, ?_⟩
              · rw [h3]; simp [InsertLast]
              · rw [h4]; simp; omega
              · rw [expectedSum_cons]; simp only; omega
              · intro hok
                rw [expectedSum_cons, h6 hok]; simp only; omega

/-! ## Facts about `Request` -/

theorem FindStartPart_sound (f : File) (c : Option Nat) (o : Int)
    (h : (FindStartPart f c o).1 ≠ -1) :
    ∃ (t : Nat) (p : FilePart),
      (FindStartPart f c o).1 = (t : Int) ∧ f.array[t]? = some p ∧ compare o p = 0 := by
  unfold FindStartPart at h ⊢
  split
  · rename_i hgt
    rw [if_pos hgt] at h
    exact absurd rfl h
  · rename_i hgt
    rw [if_neg hgt] at h
    simp only at h ⊢
    split
    · rename_i hhit
      cases c with
      | none => simp at hhit
      | some i =>
        cases hget : f.array[i]? with
        | none => simp [hget] at hhit
        | some p =>
          simp only [hget] at hhit
          exact ⟨i, p, rfl, hget, by simpa using hhit⟩
    · rename_i hhit
      rw [if_neg hhit] at h
      cases hb : bsearch o f.array f.parts with
      | none => simp [hb] at h
      | some i =>
        obtain ⟨p, hp, hc⟩ := bsearchLoop_sound _ _ _ _ _ _ hb
        exact ⟨i, p, rfl, hp, hc⟩

theorem drop_of_getElem? (l : List FilePart) (t : Nat) (p : FilePart) (h : l[t]? = some p) :
    l.drop t = p :: l.drop (t + 1) := by
  have hlt : t < l.length := by
    rcases Nat.lt_or_ge t l.length with h1 | h1
    · exact h1
    · rw [List.getElem?_eq_none h1] at h; cases h
  rw [List.drop_eq_getElem_cons hlt]
  rw [List.getElem?_eq_getElem hlt] at h
  cases h
  rfl

theorem positiveSizes_of_contiguous (ps : List FilePart) (s : Int) (h : contiguousFrom s ps) :
    positiveSizes ps := by
  intro p hp
  obtain ⟨i, hi⟩ := List.getElem?_of_mem hp
  exact (contiguous_bounds ps s h i p hi).2.1

theorem positiveSizes_drop (ps : List FilePart) (n : Nat) (h : positiveSizes ps) :
    positiveSizes (ps.drop n) := by
  intro p hp
  exact h p (List.mem_of_mem_drop hp)

theorem ConvertSample_lLength_lt (m_align : Nat) (f : File) (s : Option IMediaSample)
    (out : Locals) (h : out.lLength < 4294967296) :
    (ConvertSample m_align f s out).2.2.lLength < 4294967296 := by
  unfold ConvertSample
  split
  · exact h
  · split
    · exact h
    · split
      · exact h
      · simp only
        split
        · exact h
        · split
          · exact h
          · split
            · exact h
            · simp only
              split
              · split
                · exact toDWORD_lt _
                · exact toDWORD_lt _
              · exact toDWORD_lt _

theorem Request_ok_inv (pin : CRFSOutputPin) (env : RequestEnv) (pSample : Option IMediaSample)
    (tok : Nat) (f : File) (hf : pin.m_file = some f) (hwf : f.wellFormed)
    (hll : (ConvertSample pin.m_align f pSample env.uninit).2.2.lLength < 4294967296)
    (hok : (Request pin env pSample tok).hr = S_OK) :
    pin.m_flush = false ∧
    ∃ rr : ReadRequest,
      (Request pin env pSample tok).pin =
        { pin with
          m_prev_part := (FindStartPart f pin.m_prev_part
            (ConvertSample pin.m_align f pSample env.uninit).2.2.llPosition).2
          m_requests := rr :: pin.m_requests
          m_event := SetEvent pin.m_event } ∧
      (Request pin env pSample tok).sample = (ConvertSample pin.m_align f pSample env.uninit).2.1 ∧
      rr.dwUser = tok ∧
      rr.pSample = (ConvertSample pin.m_align f pSample env.uninit).2.1 ∧
      rr.count = rr.subreqs.length ∧
      expectedSum rr.subreqs = (ConvertSample pin.m_align f pSample env.uninit).2.2.lLength := by
  generalize hcs : ConvertSample pin.m_align f pSample env.uninit = cs at hll ⊢
  by_cases hfl : pin.m_flush = true
  · simp [Request, hfl, S_OK, VFW_E_WRONG_STATE] at hok
  have hfl2 : pin.m_flush = false := by simpa using hfl
  refine ⟨hfl2, ?_⟩
  unfold Request at hok ⊢
  simp only [hfl2, hf, hcs, Bool.false_eq_true, if_false] at hok ⊢
  split at hok
  · rename_i hfail
    simp only [FAILED, decide_eq_true_eq] at hfail
    simp only [S_OK] at hok
    rw [hok] at hfail
    exact absurd hfail (by decide)
  rename_i hfail
  rw [if_neg hfail]
  split at hok
  · simp [S_OK, VFW_E_BADALIGN] at hok
  rename_i halign
  rw [if_neg halign]
  split at hok
  · simp [S_OK, S_FALSE] at hok
  rename_i hfsp
  rw [if_neg hfsp]
  split at hok
  · simp [S_OK, E_OUTOFMEMORY] at hok
  rename_i halloc
  rw [if_neg halloc]
  have hne : (FindStartPart f pin.m_prev_part cs.2.2.llPosition).1 ≠ -1 := by
    simpa using hfsp
  obtain ⟨t, p, ht, hp, hc⟩ := FindStartPart_sound f pin.m_prev_part _ hne
  have hdrop := drop_of_getElem? f.array t p hp
  rw [ht, Int.toNat_ofNat, hdrop] at hok ⊢
  simp only at hok ⊢
  have hcov := (compare_eq_zero_iff _ _).1 hc
  have hps : positiveSizes (p :: f.array.drop (t + 1)) := by
    rw [← hdrop]
    exact positiveSizes_drop _ _ (positiveSizes_of_contiguous _ _ hwf.1)
  have hin : insideFirst (p :: f.array.drop (t + 1))
      (toDWORD (cs.2.2.llPosition - p.in_file_offset)) := by
    show ((toDWORD (cs.2.2.llPosition - p.in_file_offset) : Nat) : Int) < p.size
    unfold toDWORD
    omega
  obtain ⟨h1, h2, new, h3, h4, h5, h6⟩ :=
    requestLoop_exact env.sub cs.2.2.pBuffer _ 0 _ _ _ 0 _ [] _ hll hps hin rfl
  split at hok
  · rename_i hlp
    rw [if_pos hlp]
    refine ⟨_, rfl, rfl, h1, h2, ?_, ?_⟩
    · rw [h4, h3]; simp
    · rw [h3]
      simp only [List.nil_append]
      exact h6 (by simpa using hlp)
  · rename_i hlp
    simp only at hok
    exact absurd hok (by simpa using hlp)

/-! ## Facts about `WaitForNext` -/

theorem toDWORD_add (a b : Nat) : toDWORD ((a : Int) + (b : Int)) = (a + b) % 4294967296 := by
  unfold toDWORD; omega

theorem toLONG_mod (x : Nat) : toLONG (x % 4294967296) = toLONG x := by
  unfold toLONG
  rw [Nat.mod_mod]

theorem toLONG_of_le (x : Nat) (h : (x : Int) ≤ LONG_MAX) : toLONG x = (x : Int) := by
  unfold LONG_MAX at h
  unfold toLONG
  have : x % 4294967296 = x := Nat.mod_eq_of_lt (by omega)
  rw [this, if_pos (by omega)]

theorem collectLoop_full (overlapped : Nat → Bool × Nat) (subs : List SubRequest) :
    ∀ (k acc : Nat), acc < 4294967296 → fullDelivery overlapped subs k = true →
      collectLoop overlapped subs k acc S_OK = ((acc + expectedSum subs) % 4294967296, S_OK) := by
  induction subs with
  | nil =>
    intro k acc hacc _
    simp [collectLoop, expectedSum, Nat.mod_eq_of_lt hacc]
  | cons sr rest ih =>
    intro k acc hacc hfull
    simp only [fullDelivery, Bool.and_eq_true, beq_iff_eq] at hfull
    obtain ⟨⟨h1, h2⟩, h3⟩ := hfull
    unfold collectLoop
    simp only [h1, h2, Bool.not_true, Bool.false_eq_true, if_false, ne_eq, not_true_eq_false]
    rw [toDWORD_add, ih (k + 1) _ (Nat.mod_lt _ (by decide)) h3, expectedSum_cons]
    simp only [Prod.mk.injEq, and_true]
    omega

theorem ConvertSample_addr (m_align : Nat) (f : File) (s : IMediaSample) (out : Locals) :
    ∃ s1, (ConvertSample m_align f (some s) out).2.1 = some s1 ∧ s1.addr = s.addr := by
  unfold ConvertSample
  simp only
  split_ifs <;> exact ⟨_, rfl, rfl⟩

/-- Round trip in terms of the converted length.  Starting from an empty
pending queue and not flushing, if `Request (sample, token)` returns `S_OK`
and every sub-read of the queued request completes delivering exactly its
expected byte count, the next `WaitForNext` returns `S_OK`, hands back the
same token and the same sample, and sets the sample's actual data length to
the sum of the sub-requests' expected counts, which is the length the locals
of `Request` held after `ConvertSample`; the queue is empty again. -/
theorem Request_WaitForNext_round_trip (pin : CRFSOutputPin) (env : RequestEnv)
    (wenv : WaitEnv) (s : IMediaSample) (tok dwTimeout : Nat) (f : File)
    (sample0 : Option IMediaSample) (user0 : Nat)
    (hf : pin.m_file = some f) (hwf : f.wellFormed)
    (hll : (ConvertSample pin.m_align f (some s) env.uninit).2.2.lLength < 4294967296)
    (hq : pin.m_requests = []) (hfl : pin.m_flush = false)
    (hok : (Request pin env (some s) tok).hr = S_OK)
    (hwait : wenv.waitAll ≠ WAIT_TIMEOUT ∧ wenv.waitAll ≠ WAIT_FAILED)
    (hfull : ∀ rr, rr ∈ (Request pin env (some s) tok).pin.m_requests →
      fullDelivery wenv.overlapped rr.subreqs 0 = true) :
    ∃ (rr : ReadRequest) (res : WaitResult) (s1 : IMediaSample),
      (Request pin env (some s) tok).pin.m_requests = [rr] ∧
      WaitForNext (Request pin env (some s) tok).pin wenv dwTimeout (some sample0) (some user0) =
        some (.returned res) ∧
      res.hr = S_OK ∧ res.pdwUser = some tok ∧ res.ppSample = some (some s1) ∧
      s1.addr = s.addr ∧
      s1.actualDataLength = toLONG (expectedSum rr.subreqs) ∧
      expectedSum rr.subreqs = (ConvertSample pin.m_align f (some s) env.uninit).2.2.lLength ∧
      ((expectedSum rr.subreqs : Int) ≤ LONG_MAX →
        s1.actualDataLength = (expectedSum rr.subreqs : Int)) ∧
      res.pin.m_requests = [] := by
  obtain ⟨_, rr, hpin, hsmp, hrr1, hrr2, hrr3, hrr4⟩ :=
    Request_ok_inv pin env (some s) tok f hf hwf hll hok
  obtain ⟨s1, hs1, hs1a⟩ := ConvertSample_addr pin.m_align f s env.uninit
  rw [hpin] at hfull ⊢
  simp only [hq] at hfull ⊢
  have hfd := hfull rr (by simp)
  have hcl := collectLoop_full wenv.overlapped rr.subreqs 0 0 (by decide) hfd
  have hW : WaitForNext
      { pin with
        m_prev_part := (FindStartPart f pin.m_prev_part
          (ConvertSample pin.m_align f (some s) env.uninit).2.2.llPosition).2
        m_requests := [rr]
        m_event := SetEvent pin.m_event } wenv dwTimeout (some sample0) (some user0) =
      some (.returned (waitOnRequest
        { pin with
          m_prev_part := (FindStartPart f pin.m_prev_part
            (ConvertSample pin.m_align f (some s) env.uninit).2.2.llPosition).2
          m_requests := []
          m_event := SetEvent pin.m_event } wenv rr sample0 user0)) := by
    simp only [WaitForNext, hfl, Bool.false_eq_true, if_false, UnlinkLast,
      List.getLast?_singleton, List.dropLast_single]
  refine ⟨rr, _, { s1 with actualDataLength := toLONG (expectedSum rr.subreqs) }, rfl, hW,
    ?_, ?_, ?_, hs1a, rfl, hrr4, ?_, ?_⟩
  · simp only [waitOnRequest, if_neg hwait.1, if_neg hwait.2, hcl]
  · simp only [waitOnRequest, if_neg hwait.1, if_neg hwait.2, hrr1]
  · simp only [waitOnRequest, if_neg hwait.1, if_neg hwait.2, hcl, hrr2, hs1, Option.map_some',
      Nat.zero_add, toLONG_mod]
  · intro hle
    exact toLONG_of_le _ hle
  · simp only [waitOnRequest, if_neg hwait.1, if_neg hwait.2]

/-! ## Acceptance of requests that end inside the file -/

theorem contiguous_drop (ps : List FilePart) : ∀ (s : Int), contiguousFrom s ps →
    ∀ (t : Nat) (p : FilePart), ps[t]? = some p →
      contiguousFrom p.in_file_offset (ps.drop t) := by
  induction ps with
  | nil => intro s _ t p h; simp at h
  | cons q qs ih =>
    intro s hc t p h
    cases t with
    | zero =>
      simp at h
      subst h
      simp only [List.drop_zero]
      exact ⟨rfl, hc.2.1, by rw [hc.1]; exact hc.2.2⟩
    | succ k =>
      simp at h
      simp only [List.drop_succ_cons]
      exact ih _ hc.2.2 k p h

theorem contiguous_drop_total (ps : List FilePart) : ∀ (s : Int), contiguousFrom s ps →
    ∀ (t : Nat) (p : FilePart), ps[t]? = some p →
      p.in_file_offset + totalSize (ps.drop t) = s + totalSize ps := by
  induction ps with
  | nil => intro s _ t p h; simp at h
  | cons q qs ih =>
    intro s hc t p h
    obtain ⟨h1, h2, h3⟩ := hc
    cases t with
    | zero =>
      simp at h
      subst h
      simp only [List.drop_zero, totalSize]
      omega
    | succ k =>
      simp at h
      have := ih _ h3 k p h
      simp only [List.drop_succ_cons, totalSize]
      omega

theorem requestLoop_succeeds (sub : Nat → SubEnv) (pBuffer : Nat)
    (hsub : ∀ k, (sub k).allocOk = true ∧ (sub k).hEvent ≠ 0 ∧
      ((sub k).readFile = none ∨ (sub k).readFile = some ERROR_IO_PENDING ∨
        (sub k).readFile = some ERROR_HANDLE_EOF))
    (ps : List FilePart) :
    ∀ (k offset2 : Nat) (offset : Int) (lLength acc : Nat) (req : ReadRequest)
      (reads : List PhysRead),
      lLength < 4294967296 → positiveSizes ps → ps ≠ [] → insideFirst ps offset2 →
      (lLength : Int) ≤ totalSize ps - (offset2 : Int) →
      (requestLoop sub pBuffer ps k offset2 offset lLength acc req reads).1 = S_OK := by
  induction ps with
  | nil => intro k offset2 offset lLength acc req reads _ _ hne; exact absurd rfl hne
  | cons part rest ih =>
    intro k offset2 offset lLength acc req reads hl hpos _ hin hle
    have hsz : (offset2 : Int) < part.size := hin
    obtain ⟨hm1, hm2, hm3⟩ := minToRead_spec lLength part offset2 hl hsz
    obtain ⟨ha, he, hr⟩ := hsub k
    have hbad : (match (sub k).readFile with
        | none => false
        | some err => err != ERROR_IO_PENDING && err != ERROR_HANDLE_EOF) = false := by
      rcases hr with h | h | h <;> rw [h] <;> decide
    unfold requestLoop
    simp only [ha, Bool.not_true, Bool.false_eq_true, if_false, he, hbad]
    rw [toDWORD_sub lLength _ hl hm1]
    split
    · rfl
    · rename_i hpos1
      have hlt : minToRead lLength part offset2 < lLength := by omega
      have heq := hm3 hlt
      simp only [totalSize] at hle
      cases rest with
      | nil =>
        simp only [totalSize] at hle
        omega
      | cons next tail =>
        simp only
        apply ih
        · omega
        · intro p hp
          exact hpos p (List.mem_cons_of_mem _ hp)
        · simp
        · have := hpos next (by simp)
          simpa [insideFirst] using this
        · have : ((lLength - minToRead lLength part offset2 : Nat) : Int) =
              (lLength : Int) - (minToRead lLength part offset2 : Int) := by omega
          rw [this]
          omega

theorem ConvertSample_inside (m_align : Nat) (f : File) (s : IMediaSample) (out : Locals)
    (hgt : 0 ≤ s.getTimeResult) (hst : 0 ≤ s.start)
    (hlen0 : 0 ≤ Int.tdiv (s.stop - s.start) UNITS)
    (hlen1 : Int.tdiv (s.stop - s.start) UNITS ≤ LONG_MAX)
    (hgp : 0 ≤ s.getPointerResult)
    (hend : Int.tdiv s.start UNITS + Int.tdiv (s.stop - s.start) UNITS ≤ f.size) :
    ConvertSample m_align f (some s) out =
      (S_OK, some s,
        { llPosition := Int.tdiv s.start UNITS
          lLength := toDWORD (Int.tdiv (s.stop - s.start) UNITS)
          pBuffer := s.pointer }) := by
  have hcast : ((toDWORD (Int.tdiv (s.stop - s.start) UNITS) : Nat) : Int) =
      Int.tdiv (s.stop - s.start) UNITS :=
    toDWORD_of_range _ hlen0 (by unfold LONG_MAX at hlen1; omega)
  have h1 : ¬ s.getTimeResult < 0 := not_lt.mpr hgt
  have h2 : ¬ s.start < 0 := not_lt.mpr hst
  have h3 : ¬ (Int.tdiv (s.stop - s.start) UNITS < 0 ∨
      Int.tdiv (s.stop - s.start) UNITS > LONG_MAX) := by
    intro h
    rcases h with h | h
    · exact absurd h (not_lt.mpr hlen0)
    · exact absurd h (not_lt.mpr hlen1)
  have h4 : ¬ Int.tdiv s.start UNITS > f.size := by omega
  have h5 : ¬ Int.tdiv s.start UNITS + Int.tdiv (s.stop - s.start) UNITS > f.size := by omega
  have h6 : ¬ s.getPointerResult < 0 := not_lt.mpr hgp
  simp only [ConvertSample, FAILED, decide_eq_true_eq, h1, h2, h3, h4, hcast, h5, h6, if_false]

theorem land_mask (k q : Nat) (hk : k ≤ 64) (hq : q < 2 ^ (64 - k)) :
    (2 ^ k * q + (2 ^ k - 1)) &&& (2 ^ 64 - ((2 ^ k - 1) + 1)) = 2 ^ k * q := by
  apply Nat.eq_of_testBit_eq
  intro j
  have hlt : 2 ^ k - 1 < 2 ^ k := Nat.sub_lt (Nat.two_pow_pos k) (by decide)
  have hlt64 : 2 ^ k - 1 < 2 ^ 64 := lt_of_lt_of_le hlt (Nat.pow_le_pow_right (by decide) hk)
  rw [Nat.testBit_and, Nat.testBit_mul_pow_two_add q hlt j, Nat.testBit_two_pow_sub_succ hlt64,
    Nat.testBit_two_pow_sub_one, Nat.testBit_mul_pow_two]
  by_cases h1 : j < k
  · simp [h1]
  · simp only [h1, if_false, decide_False, Bool.not_false, Bool.and_true]
    have h2 : k ≤ j := by omega
    simp only [ge_iff_le, h2, decide_True, Bool.true_and]
    by_cases h3 : j < 64
    · simp [h3]
    · simp only [h3, decide_False, Bool.and_false]
      symm
      apply Nat.testBit_lt_two_pow
      calc q < 2 ^ (64 - k) := hq
        _ ≤ 2 ^ (j - k) := Nat.pow_le_pow_right (by decide) (by omega)

theorem alignUp_of_multiple (k : Nat) (t : Int) (hk : k ≤ 31) (h0 : 0 ≤ t)
    (h1 : t < 4611686018427387904) (hm : t % ((2 ^ k : Nat) : Int) = 0) :
    alignUp (2 ^ k) t = t := by
  obtain ⟨n, rfl⟩ := Int.eq_ofNat_of_zero_le h0
  have hdvd : 2 ^ k ∣ n := by
    have : ((2 ^ k : Nat) : Int) ∣ (n : Int) := Int.dvd_of_emod_eq_zero hm
    exact Int.natCast_dvd_natCast.mp this
  obtain ⟨q, hq⟩ := hdvd
  have hP1 : 1 ≤ 2 ^ k := Nat.two_pow_pos k
  have hP2 : 2 ^ k ≤ 2 ^ 31 := Nat.pow_le_pow_right (by decide) hk
  have hqlt : q < 2 ^ (64 - k) := by
    have h2 : 2 ^ k * q < 2 ^ k * 2 ^ (64 - k) := by
      rw [← Nat.pow_add, show k + (64 - k) = 64 by omega, ← hq]
      omega
    exact Nat.lt_of_mul_lt_mul_left h2
  have hmask := land_mask k q (by omega) hqlt
  unfold alignUp
  have e1 : toU64 ((n : Int) + ((2 ^ k : Nat) : Int) - 1) = 2 ^ k * q + (2 ^ k - 1) := by
    unfold toU64
    rw [← hq]
    omega
  have e2 : 18446744073709551615 - toU64 (((2 ^ k : Nat) : Int) - 1) =
      2 ^ 64 - ((2 ^ k - 1) + 1) := by
    unfold toU64
    omega
  rw [e1, e2, hmask, ← hq]
  unfold toI64
  have : n % 18446744073709551616 = n := Nat.mod_eq_of_lt (by omega)
  rw [this, if_pos (by omega)]

theorem tdiv_nonneg_of_nonneg (a : Int) (h : 0 ≤ a) : 0 ≤ Int.tdiv a UNITS := by
  rw [Int.tdiv_eq_ediv h (by decide)]
  unfold UNITS
  omega

/-- A request that ends at or before the end of the file and starts inside
it is split without running out of parts. -/
theorem Request_inside_ok (pin : CRFSOutputPin) (env : RequestEnv) (s : IMediaSample)
    (tok : Nat) (f : File)
    (hfl : pin.m_flush = false) (hf : pin.m_file = some f) (hwf : f.wellFormed)
    (henv : env.benign)
    (hgt : 0 ≤ s.getTimeResult) (hst : 0 ≤ s.start) (hgp : 0 ≤ s.getPointerResult)
    (hlen0 : 0 ≤ Int.tdiv (s.stop - s.start) UNITS)
    (hlen1 : Int.tdiv (s.stop - s.start) UNITS ≤ LONG_MAX)
    (halign : (IsAligned pin.m_align (Int.tdiv s.start UNITS) &&
      IsAligned pin.m_align (Int.tdiv (s.stop - s.start) UNITS) &&
      IsAligned pin.m_align (s.pointer : Int)) = true)
    (hstart : Int.tdiv s.start UNITS < f.size)
    (hend : Int.tdiv s.start UNITS + Int.tdiv (s.stop - s.start) UNITS ≤ f.size) :
    (Request pin env (some s) tok).hr = S_OK := by
  have hcs := ConvertSample_inside pin.m_align f s env.uninit hgt hst hlen0 hlen1 hgp hend
  have hcast : ((toDWORD (Int.tdiv (s.stop - s.start) UNITS) : Nat) : Int) =
      Int.tdiv (s.stop - s.start) UNITS :=
    toDWORD_of_range _ hlen0 (by unfold LONG_MAX at hlen1; omega)
  have ho0 := tdiv_nonneg_of_nonneg s.start hst
  obtain ⟨t, p, hp, hlo, hhi⟩ :=
    contiguous_exists f.array 0 hwf.1 _ ho0 (by have := hwf.2; omega)
  have hcov : covers f t (Int.tdiv s.start UNITS) := ⟨p, hp, hlo, hhi⟩
  have hfsp := FindStartPart_of_covers f hwf pin.m_prev_part t _ hcov
  have hdrop := drop_of_getElem? f.array t p hp
  have htot := contiguous_drop_total f.array 0 hwf.1 t p hp
  have hps : positiveSizes (p :: f.array.drop (t + 1)) := by
    rw [← hdrop]
    exact positiveSizes_drop _ _ (positiveSizes_of_contiguous _ _ hwf.1)
  have hin : insideFirst (p :: f.array.drop (t + 1))
      (toDWORD (Int.tdiv s.start UNITS - p.in_file_offset)) := by
    show ((toDWORD (Int.tdiv s.start UNITS - p.in_file_offset) : Nat) : Int) < p.size
    unfold toDWORD
    omega
  have hlp := requestLoop_succeeds env.sub s.pointer henv.2 (p :: f.array.drop (t + 1)) 0
    (toDWORD (Int.tdiv s.start UNITS - p.in_file_offset))
    (p.in_rar_offset + ((toDWORD (Int.tdiv s.start UNITS - p.in_file_offset) : Nat) : Int))
    (toDWORD (Int.tdiv (s.stop - s.start) UNITS)) 0
    { dwUser := tok, pSample := some s, count := 0, subreqs := [] } []
    (toDWORD_lt _) hps (by simp) hin (by
      rw [hcast, ← hdrop]
      have := hwf.2
      have h2 : ((toDWORD (Int.tdiv s.start UNITS - p.in_file_offset) : Nat) : Int) ≤
          Int.tdiv s.start UNITS - p.in_file_offset := by
        unfold toDWORD
        omega
      omega)
  unfold Request
  simp only [hfl, hf, hcs, hcast, halign, hfsp, henv.1, Int.toNat_ofNat, hdrop, hlp,
    Bool.false_eq_true, if_false, Bool.not_true, beq_self_eq_true, if_true]
  have h1 : FAILED S_OK = false := by decide
  have h2 : ((t : Int) == -1) = false := by
    simp only [beq_eq_false_iff_ne, ne_eq]
    omega
  simp only [h1, h2, Bool.false_eq_true, if_false]

/-- Round trip for a sample that lies inside the file.  Starting from an empty
pending queue and not flushing, if `Request (sample, token)` returns `S_OK`
for a sample whose range ends at or before the end of the file, and every
sub-read completes delivering exactly its expected byte count, the next
`WaitForNext` returns `S_OK`, hands back the same token and the same sample,
and sets the sample's actual data length to the length the sample asked for,
`(stop - start) / UNITS`. -/
theorem round_trip_inside_file (pin : CRFSOutputPin) (env : RequestEnv)
    (wenv : WaitEnv) (s : IMediaSample) (tok dwTimeout : Nat) (f : File)
    (sample0 : Option IMediaSample) (user0 : Nat)
    (hf : pin.m_file = some f) (hwf : f.wellFormed)
    (hq : pin.m_requests = []) (hfl : pin.m_flush = false)
    (hgt : 0 ≤ s.getTimeResult) (hst : 0 ≤ s.start) (hgp : 0 ≤ s.getPointerResult)
    (hlen0 : 0 ≤ Int.tdiv (s.stop - s.start) UNITS)
    (hlen1 : Int.tdiv (s.stop - s.start) UNITS ≤ LONG_MAX)
    (hend : Int.tdiv s.start UNITS + Int.tdiv (s.stop - s.start) UNITS ≤ f.size)
    (hok : (Request pin env (some s) tok).hr = S_OK)
    (hwait : wenv.waitAll ≠ WAIT_TIMEOUT ∧ wenv.waitAll ≠ WAIT_FAILED)
    (hfull : ∀ rr, rr ∈ (Request pin env (some s) tok).pin.m_requests →
      fullDelivery wenv.overlapped rr.subreqs 0 = true) :
    ∃ (res : WaitResult) (s1 : IMediaSample),
      WaitForNext (Request pin env (some s) tok).pin wenv dwTimeout (some sample0) (some user0) =
        some (.returned res) ∧
      res.hr = S_OK ∧ res.pdwUser = some tok ∧ res.ppSample = some (some s1) ∧
      s1.addr = s.addr ∧
      s1.actualDataLength = Int.tdiv (s.stop - s.start) UNITS ∧
      res.pin.m_requests = [] := by
  have hcs := ConvertSample_inside pin.m_align f s env.uninit hgt hst hlen0 hlen1 hgp hend
  have hcast : ((toDWORD (Int.tdiv (s.stop - s.start) UNITS) : Nat) : Int) =
      Int.tdiv (s.stop - s.start) UNITS :=
    toDWORD_of_range _ hlen0 (by unfold LONG_MAX at hlen1; omega)
  obtain ⟨rr, res, s1, _, hW, h1, h2, h3, h4, h5, h6, h7, h8⟩ :=
    Request_WaitForNext_round_trip pin env wenv s tok dwTimeout f sample0 user0 hf hwf
      (by rw [hcs]; exact toDWORD_lt _) hq hfl hok hwait hfull
  rw [hcs] at h6
  simp only at h6
  refine ⟨res, s1, hW, h1, h2, h3, h4, ?_, h8⟩
  rw [h7 (by rw [h6, hcast]; exact hlen1), h6, hcast]

/-! ## Queue discipline -/

theorem requestLoop_keeps (sub : Nat → SubEnv) (pBuffer : Nat) (ps : List FilePart) :
    ∀ (k offset2 : Nat) (offset : Int) (lLength acc : Nat) (req : ReadRequest)
      (reads : List PhysRead),
      (requestLoop sub pBuffer ps k offset2 offset lLength acc req reads).2.1.dwUser =
        req.dwUser ∧
      (requestLoop sub pBuffer ps k offset2 offset lLength acc req reads).2.1.pSample =
        req.pSample ∧
      ((requestLoop sub pBuffer ps k offset2 offset lLength acc req reads).1 = S_OK ∨
       (requestLoop sub pBuffer ps k offset2 offset lLength acc req reads).1 = S_FALSE ∨
       (requestLoop sub pBuffer ps k offset2 offset lLength acc req reads).1 = E_OUTOFMEMORY) := by
  induction ps with
  | nil =>
    intro k offset2 offset lLength acc req reads
    simp [requestLoop]
  | cons part rest ih =>
    intro k offset2 offset lLength acc req reads
    unfold requestLoop
    simp only
    split
    · simp
    · split
      · simp
      · split
        · simp
        · split
          · simp
          · cases rest with
            | nil => simp
            | cons next tail =>
              simp only
              have := ih (k + 1) 0 next.in_rar_offset
                (toDWORD ((lLength : Int) - (minToRead lLength part offset2 : Int)))
                (toDWORD ((acc : Int) + (minToRead lLength part offset2 : Int)))
                { req with
                  subreqs := InsertLast req.subreqs
                    { file := part.file, expected := minToRead lLength part offset2,
                      o := { hEvent := (sub k).hEvent, Offset := toU64 offset % 4294967296,
                             OffsetHigh := toU64 offset / 4294967296 } }
                  count := req.count + 1 }
                (reads ++ [{ file := part.file, buffer := pBuffer + acc,
                             count := minToRead lLength part offset2,
                             Offset := toU64 offset % 4294967296,
                             OffsetHigh := toU64 offset / 4294967296 }])
              exact this

theorem Request_ok_queue (pin : CRFSOutputPin) (env : RequestEnv)
    (pSample : Option IMediaSample) (tok : Nat)
    (hok : (Request pin env pSample tok).hr = S_OK) :
    pin.m_flush = false ∧ (Request pin env pSample tok).pin.m_flush = false ∧
    ∃ rr : ReadRequest,
      (Request pin env pSample tok).pin.m_requests = rr :: pin.m_requests ∧ rr.dwUser = tok := by
  by_cases hfl : pin.m_flush = true
  · simp [Request, hfl, S_OK, VFW_E_WRONG_STATE] at hok
  have hfl2 : pin.m_flush = false := by simpa using hfl
  refine ⟨hfl2, ?_⟩
  unfold Request at hok ⊢
  simp only [hfl2, Bool.false_eq_true, if_false] at hok ⊢
  cases hf : pin.m_file with
  | none => simp [hf, S_OK, E_UNEXPECTED] at hok
  | some f =>
    simp only [hf] at hok ⊢
    split at hok
    · rename_i hfail
      simp only [FAILED, decide_eq_true_eq] at hfail
      simp only [S_OK] at hok
      rw [hok] at hfail
      exact absurd hfail (by decide)
    rename_i hfail
    rw [if_neg hfail]
    split at hok
    · simp [S_OK, VFW_E_BADALIGN] at hok
    rename_i halign
    rw [if_neg halign]
    split at hok
    · simp [S_OK, S_FALSE] at hok
    rename_i hfsp
    rw [if_neg hfsp]
    split at hok
    · simp [S_OK, E_OUTOFMEMORY] at hok
    rename_i halloc
    rw [if_neg halloc]
    generalize hd : f.array.drop (FindStartPart f pin.m_prev_part
      (ConvertSample pin.m_align f pSample env.uninit).2.2.llPosition).1.toNat = d at hok ⊢
    cases d with
    | nil => simp [S_OK, S_FALSE] at hok
    | cons part rest =>
      simp only at hok ⊢
      split at hok
      · rename_i hlp
        rw [if_pos hlp]
        refine ⟨rfl, _, rfl, ?_⟩
        exact (requestLoop_keeps _ _ _ _ _ _ _ _ _ _).1
      · rename_i hlp
        simp only at hok
        exact absurd hok (by simpa using hlp)

theorem runRequests_queue (calls : List RequestCall) :
    ∀ (pin : CRFSOutputPin),
      (∀ hr, hr ∈ (runRequests pin calls).1 → hr = S_OK) →
      (calls ≠ [] → pin.m_flush = false) ∧
      (runRequests pin calls).2.m_flush = pin.m_flush ∧
      (runRequests pin calls).2.m_requests.map (fun rr => rr.dwUser) =
        (calls.map (fun c => c.dwUser)).reverse ++ pin.m_requests.map (fun rr => rr.dwUser) := by
  induction calls with
  | nil => intro pin _; simp [runRequests]
  | cons c cs ih =>
    intro pin hall
    simp only [runRequests] at hall ⊢
    have hok : (Request pin c.env c.pSample c.dwUser).hr = S_OK := hall _ (by simp)
    obtain ⟨h1, h2, rr, h3, h4⟩ := Request_ok_queue pin c.env c.pSample c.dwUser hok
    obtain ⟨_, i2, i3⟩ := ih (Request pin c.env c.pSample c.dwUser).pin
      (fun hr hmem => hall hr (by simp [hmem]))
    refine ⟨fun _ => h1, ?_, ?_⟩
    · rw [i2, h2, h1]
    · rw [i3, h3]
      simp [h4]

theorem collectLoop_ret (overlapped : Nat → Bool × Nat) (subs : List SubRequest) :
    ∀ (k acc : Nat), (collectLoop overlapped subs k acc S_OK).2 = S_OK ∨
      (collectLoop overlapped subs k acc S_OK).2 = S_FALSE := by
  induction subs with
  | nil => intro k acc; simp [collectLoop]
  | cons sr rest ih =>
    intro k acc
    unfold collectLoop
    simp only
    split
    · simp
    · split
      · simp
      · exact ih _ _

theorem WaitForNext_nonempty (pin : CRFSOutputPin) (env : WaitEnv) (dwTimeout : Nat)
    (sample0 : Option IMediaSample) (user0 : Nat) (q : List ReadRequest) (rr : ReadRequest)
    (hfl : pin.m_flush = false) (hq : pin.m_requests = q ++ [rr]) :
    WaitForNext pin env dwTimeout (some sample0) (some user0) =
      some (.returned (waitOnRequest { pin with m_requests := q } env rr sample0 user0)) := by
  simp only [WaitForNext, hfl, Bool.false_eq_true, if_false, UnlinkLast, hq,
    List.getLast?_concat, List.dropLast_concat]

/-- A call of `WaitForNext` outside flushing on a queue whose back element is
`rr`: when the wait on the sub-reads times out the pin is left as it was,
otherwise `rr` is removed and its token handed back. -/
theorem waitOnRequest_cases (pin : CRFSOutputPin) (env : WaitEnv) (rr : ReadRequest)
    (sample0 : Option IMediaSample) (user0 : Nat) (q : List ReadRequest) :
    (env.waitAll = WAIT_TIMEOUT →
      waitOnRequest { pin with m_requests := q } env rr sample0 user0 =
        { hr := VFW_E_TIMEOUT, ppSample := some sample0, pdwUser := some user0,
          pin := { pin with m_requests := q ++ [rr] }, cancelled := [] }) ∧
    (env.waitAll ≠ WAIT_TIMEOUT →
      (waitOnRequest { pin with m_requests := q } env rr sample0 user0).pin =
        { pin with m_requests := q } ∧
      (waitOnRequest { pin with m_requests := q } env rr sample0 user0).pdwUser =
        some rr.dwUser ∧
      (waitOnRequest { pin with m_requests := q } env rr sample0 user0).hr ≠ VFW_E_TIMEOUT) := by
  constructor
  · intro h
    simp [waitOnRequest, h, InsertLast]
  · intro h
    unfold waitOnRequest
    rw [if_neg h]
    split
    · refine ⟨rfl, rfl, ?_⟩
      show E_FAIL ≠ VFW_E_TIMEOUT
      decide
    · refine ⟨rfl, rfl, ?_⟩
      show (collectLoop env.overlapped rr.subreqs 0 0 S_OK).2 ≠ VFW_E_TIMEOUT
      rcases collectLoop_ret env.overlapped rr.subreqs 0 0 with h1 | h1
      · rw [h1]; decide
      · rw [h1]; decide

theorem handedBack_of_no_completion (waits : List WaitCall) :
    ∀ (pin : CRFSOutputPin), completions waits = 0 →
      handedBack (runWaits pin waits).1 = [] := by
  induction waits with
  | nil => intro pin _; simp [runWaits, handedBack]
  | cons c cs ih =>
    intro pin h
    have hc : c.env.waitAll = WAIT_TIMEOUT := by
      by_contra hne
      simp [completions, List.filter_cons, hne] at h
    have hcs : completions cs = 0 := by
      simpa [completions, List.filter_cons, hc] using h
    unfold runWaits
    split
    · rename_i r _
      have := ih r.pin hcs
      simpa [handedBack, List.filter_cons, hc] using this
    · simp [handedBack]

theorem runWaits_fifo (waits : List WaitCall) :
    ∀ (pin : CRFSOutputPin) (toks : List Nat), pin.m_flush = false →
      pin.m_requests.map (fun rr => rr.dwUser) = toks.reverse →
      completions waits ≤ toks.length →
      handedBack (runWaits pin waits).1 = (toks.take (completions waits)).map some := by
  induction waits with
  | nil => intro pin toks _ _ _; simp [runWaits, handedBack, completions]
  | cons c cs ih =>
    intro pin toks hfl hq hm
    cases toks with
    | nil =>
      have h0 : completions (c :: cs) = 0 := by simpa using hm
      rw [handedBack_of_no_completion (c :: cs) pin h0]
      simp
    | cons t ts =>
      rcases List.eq_nil_or_concat pin.m_requests with hnil | ⟨q, rr, hcat⟩
      · rw [hnil] at hq
        simp at hq
      · rw [List.concat_eq_append] at hcat
        rw [hcat] at hq
        simp only [List.map_append, List.map_cons, List.map_nil, List.reverse_cons] at hq
        obtain ⟨hq1, hq2⟩ := List.append_inj' hq rfl
        have hrr : rr.dwUser = t := by simpa using hq2
        have hW := WaitForNext_nonempty pin c.env c.dwTimeout c.sample0 c.user0 q rr hfl hcat
        obtain ⟨hto, hnt⟩ := waitOnRequest_cases pin c.env rr c.sample0 c.user0 q
        unfold runWaits
        rw [hW]
        simp only
        by_cases hc : c.env.waitAll = WAIT_TIMEOUT
        · rw [hto hc]
          have hcomp : completions (c :: cs) = completions cs := by
            simp [completions, List.filter_cons, hc]
          have := ih { pin with m_requests := q ++ [rr] } (t :: ts) hfl
            (by simp [hq1, hrr]) (by rw [← hcomp]; exact hm)
          rw [hcomp]
          simpa [handedBack, List.filter_cons, hc] using this
        · obtain ⟨hp, hu, _⟩ := hnt hc
          have hcomp : completions (c :: cs) = completions cs + 1 := by
            simp [completions, List.filter_cons, hc]
          rw [hcomp] at hm ⊢
          have := ih { pin with m_requests := q } ts hfl (by simpa using hq1)
            (by simp at hm; omega)
          rw [hp]
          simp only [handedBack, List.filter_cons, hc, ne_eq, not_false_eq_true, decide_True,
            if_true, List.map_cons, hu, hrr, List.take_succ_cons]
          simp only [handedBack] at this
          simp only [ne_eq] at this
          rw [this]

/-- C7: queue discipline.  After any sequence of `Request` calls that all
return `S_OK` on a pin that is not flushing and starts with an empty queue,
the queue holds the requests newest first (`Request` inserts at the front);
successive `WaitForNext` calls remove from the back, so the tokens they hand
back are the submitted tokens in submission order, and a call that times out
on the sub-reads puts its request back where the next call finds it: timed-out
calls interleaved anywhere do not change the order. -/
theorem queue_is_fifo (pin0 : CRFSOutputPin) (calls : List RequestCall)
    (waits : List WaitCall)
    (hq : pin0.m_requests = []) (hfl : pin0.m_flush = false)
    (hall : ∀ hr, hr ∈ (runRequests pin0 calls).1 → hr = S_OK)
    (hm : completions waits ≤ calls.length) :
    (runRequests pin0 calls).2.m_requests.map (fun rr => rr.dwUser) =
      (calls.map (fun c => c.dwUser)).reverse ∧
    handedBack (runWaits (runRequests pin0 calls).2 waits).1 =
      ((calls.map (fun c => c.dwUser)).take (completions waits)).map some := by
  obtain ⟨_, h2, h3⟩ := runRequests_queue calls pin0 hall
  have hqueue : (runRequests pin0 calls).2.m_requests.map (fun rr => rr.dwUser) =
      (calls.map (fun c => c.dwUser)).reverse := by
    rw [h3, hq]; simp
  refine ⟨hqueue, ?_⟩
  exact runWaits_fifo waits _ _ (by rw [h2, hfl]) hqueue (by simpa using hm)

/-! ## Flushing -/

theorem WaitForNext_flushing (pin : CRFSOutputPin) (env : WaitEnv) (dwTimeout : Nat)
    (sample0 : Option IMediaSample) (user0 : Nat) (hfl : pin.m_flush = true) :
    WaitForNext pin env dwTimeout (some sample0) (some user0) =
      some (.returned (DoFlush pin user0)) := by
  simp [WaitForNext, hfl]

theorem DoFlush_concat (pin : CRFSOutputPin) (user0 : Nat) (q : List ReadRequest)
    (rr : ReadRequest) (hq : pin.m_requests = q ++ [rr]) :
    DoFlush pin user0 =
      { hr := VFW_E_TIMEOUT, ppSample := some rr.pSample, pdwUser := some rr.dwUser,
        pin := { pin with m_requests := q },
        cancelled := rr.subreqs.reverse.map (fun sr => sr.file) } := by
  simp [DoFlush, UnlinkLast, hq]

theorem DoFlush_nil (pin : CRFSOutputPin) (user0 : Nat) (hq : pin.m_requests = []) :
    DoFlush pin user0 =
      { hr := VFW_E_TIMEOUT, ppSample := some none, pdwUser := some user0,
        pin := { pin with m_requests := [] }, cancelled := [] } := by
  simp [DoFlush, UnlinkLast, hq]

theorem runWaits_flush (rq : List ReadRequest) :
    ∀ (pin : CRFSOutputPin) (waits : List WaitCall), pin.m_flush = true →
      pin.m_requests = rq.reverse → waits.length = rq.length →
      (runWaits pin waits).1.map (fun cr => (cr.2.hr, cr.2.pdwUser, cr.2.ppSample)) =
        rq.map (fun rr => (VFW_E_TIMEOUT, some rr.dwUser, some rr.pSample)) ∧
      (runWaits pin waits).1.map (fun cr => cr.2.pin.m_requests.reverse) = rq.tails.tail ∧
      (runWaits pin waits).2.m_requests = [] ∧ (runWaits pin waits).2.m_flush = true := by
  induction rq with
  | nil =>
    intro pin waits hfl hq hlen
    have : waits = [] := List.length_eq_zero.mp (by simpa using hlen)
    subst this
    simp [runWaits, hfl]
    simpa using hq
  | cons a l ih =>
    intro pin waits hfl hq hlen
    cases waits with
    | nil => simp at hlen
    | cons c cs =>
      have hq2 : pin.m_requests = l.reverse ++ [a] := by simpa using hq
      have hW := WaitForNext_flushing pin c.env c.dwTimeout c.sample0 c.user0 hfl
      rw [DoFlush_concat pin c.user0 l.reverse a hq2] at hW
      obtain ⟨i1, i2, i3, i4⟩ := ih { pin with m_requests := l.reverse } cs hfl rfl
        (by simpa using hlen)
      unfold runWaits
      rw [hW]
      simp only [List.map_cons, i1, i2, i3, i4, List.reverse_reverse, List.tails, List.tail_cons,
        and_true, true_and]
      cases l <;> simp [List.tails]

/-- C5: flush drain.  When `BeginFlush` is called on a pin whose pending queue
holds n requests, n consecutive `WaitForNext` calls all return; each hands
back, with the result `DoFlush` uses while flushing (`VFW_E_TIMEOUT`), the
token and sample of one request, the one at the back of the queue first, and
leaves in the queue exactly the requests not yet handed back; every request is
handed back exactly once, the queue is then empty, and one more `WaitForNext`
returns a `NULL` sample.  When the queue was filled by accepted `Request`
calls, the tokens come back in submission order, oldest first. -/
theorem flush_drains_queue (pin : CRFSOutputPin) (waits : List WaitCall) (extra : WaitCall)
    (hlen : waits.length = pin.m_requests.length) :
    (runWaits (BeginFlush pin).2 waits).1.map (fun cr => (cr.2.hr, cr.2.pdwUser, cr.2.ppSample)) =
      pin.m_requests.reverse.map (fun rr => (VFW_E_TIMEOUT, some rr.dwUser, some rr.pSample)) ∧
    (runWaits (BeginFlush pin).2 waits).1.map (fun cr => cr.2.pin.m_requests.reverse) =
      pin.m_requests.reverse.tails.tail ∧
    (runWaits (BeginFlush pin).2 waits).2.m_requests = [] ∧
    (∃ r : WaitResult,
      WaitForNext (runWaits (BeginFlush pin).2 waits).2 extra.env extra.dwTimeout
        (some extra.sample0) (some extra.user0) = some (.returned r) ∧
      r.ppSample = some none ∧ r.pin.m_requests = []) ∧
    (∀ (pin0 : CRFSOutputPin) (calls : List RequestCall), pin0.m_requests = [] →
      (∀ hr, hr ∈ (runRequests pin0 calls).1 → hr = S_OK) →
      pin = (runRequests pin0 calls).2 →
      (runWaits (BeginFlush pin).2 waits).1.map (fun cr => cr.2.pdwUser) =
        calls.map (fun c => some c.dwUser)) := by
  obtain ⟨h1, h2, h3, h4⟩ := runWaits_flush pin.m_requests.reverse (BeginFlush pin).2 waits rfl
    (by simp [BeginFlush]) (by simpa using hlen)
  refine ⟨h1, h2, h3, ⟨_, WaitForNext_flushing _ _ _ _ _ h4, ?_, ?_⟩, ?_⟩
  · rw [DoFlush_nil _ _ h3]
  · rw [DoFlush_nil _ _ h3]
  · intro pin0 calls hq hall hpin
    obtain ⟨_, _, h5⟩ := runRequests_queue calls pin0 hall
    rw [hq] at h5
    simp only [List.map_nil, List.append_nil] at h5
    have h6 : (runWaits (BeginFlush pin).2 waits).1.map (fun cr => cr.2.pdwUser) =
        ((runWaits (BeginFlush pin).2 waits).1.map
          (fun cr => (cr.2.hr, cr.2.pdwUser, cr.2.ppSample))).map (fun x => x.2.1) := by
      simp
    rw [h6, h1, List.map_map]
    have h7 : pin.m_requests.reverse.map
        ((fun x : HRESULT × Option Nat × Option (Option IMediaSample) => x.2.1) ∘
          fun rr => (VFW_E_TIMEOUT, some rr.dwUser, some rr.pSample)) =
        ((pin.m_requests.map (fun rr => rr.dwUser)).reverse).map some := by
      simp [List.map_reverse]
    rw [h7, hpin, h5]
    simp

/-! ## Timeouts -/

theorem waitLoop_empty (env : WaitEnv) (dwTimeout : Nat) (sample0 : Option IMediaSample)
    (user0 : Nat) (pin : CRFSOutputPin) (hfl : pin.m_flush = false)
    (hq : pin.m_requests = []) :
    waitLoop env dwTimeout sample0 user0 2 pin ≠ none ∧
    (∀ r, waitLoop env dwTimeout sample0 user0 2 pin = some (.returned r) →
      r.pin.m_requests = [] ∧ r.pin.m_flush = false ∧ r.ppSample = some sample0 ∧
      r.pdwUser = some user0) ∧
    (pin.m_event ≠ none → dwTimeout ≠ INFINITE →
      ∃ r, waitLoop env dwTimeout sample0 user0 2 pin = some (.returned r) ∧
        r.hr = VFW_E_TIMEOUT) := by
  cases hev : pin.m_event with
  | none =>
    refine ⟨?_, ?_, ?_⟩
    · simp [waitLoop, WaitForSingleObject, hev, hfl, WAIT_FAILED, WAIT_TIMEOUT]
    · intro r hr
      simp [waitLoop, WaitForSingleObject, hev, hfl, WAIT_FAILED, WAIT_TIMEOUT] at hr
      subst hr
      exact ⟨hq, rfl, rfl, rfl⟩
    · intro h; exact absurd rfl h
  | some b =>
    by_cases ht : dwTimeout = INFINITE
    · cases b <;>
        simp [waitLoop, WaitForSingleObject, hev, hfl, hq, ht, WAIT_OBJECT_0, WAIT_FAILED,
          WAIT_TIMEOUT, UnlinkLast]
    · cases b
      · refine ⟨?_, ?_, ?_⟩
        · simp [waitLoop, WaitForSingleObject, hev, hfl, ht]
        · intro r hr
          simp [waitLoop, WaitForSingleObject, hev, hfl, ht] at hr
          subst hr
          exact ⟨hq, rfl, rfl, rfl⟩
        · intro _ _
          simp [waitLoop, WaitForSingleObject, hev, hfl, ht]
      · refine ⟨?_, ?_, ?_⟩
        · simp [waitLoop, WaitForSingleObject, hev, hfl, hq, ht, WAIT_OBJECT_0, WAIT_FAILED,
            WAIT_TIMEOUT, UnlinkLast]
        · intro r hr
          simp [waitLoop, WaitForSingleObject, hev, hfl, hq, ht, WAIT_OBJECT_0, WAIT_FAILED,
            WAIT_TIMEOUT, UnlinkLast] at hr
          subst hr
          exact ⟨rfl, rfl, rfl, rfl⟩
        · intro _ _
          simp [waitLoop, WaitForSingleObject, hev, hfl, hq, ht, WAIT_OBJECT_0, WAIT_FAILED,
            WAIT_TIMEOUT, UnlinkLast]

/-- C6: a `WaitForNext` call outside flushing always comes to an end in the
model (it returns or blocks on an infinite timeout); when it returns
`VFW_E_TIMEOUT` the pending queue is exactly as before (same requests, same
order, same sub-request lists and counts), the out-cells are untouched, and
the next call dequeues the same request; with timeout 0 on an empty queue
(the wake-up event existing) the result is `VFW_E_TIMEOUT`. -/
theorem WaitForNext_timeout_atomic (pin : CRFSOutputPin) (env : WaitEnv) (dwTimeout : Nat)
    (sample0 : Option IMediaSample) (user0 : Nat) (hfl : pin.m_flush = false) :
    WaitForNext pin env dwTimeout (some sample0) (some user0) ≠ none ∧
    (∀ r, WaitForNext pin env dwTimeout (some sample0) (some user0) = some (.returned r) →
      r.hr = VFW_E_TIMEOUT →
      r.pin.m_requests = pin.m_requests ∧ (pin.m_requests ≠ [] → r.pin = pin) ∧
      UnlinkLast r.pin.m_requests = UnlinkLast pin.m_requests ∧
      r.ppSample = some sample0 ∧ r.pdwUser = some user0) ∧
    (pin.m_requests = [] → pin.m_event ≠ none →
      ∃ r, WaitForNext pin env 0 (some sample0) (some user0) = some (.returned r) ∧
        r.hr = VFW_E_TIMEOUT ∧ r.pin.m_requests = []) := by
  rcases List.eq_nil_or_concat pin.m_requests with hnil | ⟨q, rr, hcat⟩
  · have hW : ∀ t, WaitForNext pin env t (some sample0) (some user0) =
        waitLoop env t sample0 user0 2 { pin with m_requests := [] } := by
      intro t
      simp [WaitForNext, hfl, hnil, UnlinkLast]
    refine ⟨?_, ?_, ?_⟩
    · rw [hW]
      exact (waitLoop_empty env dwTimeout sample0 user0 { pin with m_requests := [] } hfl rfl).1
    · intro r hr _
      rw [hW] at hr
      obtain ⟨h1, _, h3, h4⟩ := (waitLoop_empty env dwTimeout sample0 user0
        { pin with m_requests := [] } hfl rfl).2.1 r hr
      exact ⟨by rw [h1, hnil], fun h => absurd hnil h, by rw [h1, hnil], h3, h4⟩
    · intro _ hev
      obtain ⟨r, hr, hto⟩ := (waitLoop_empty env 0 sample0 user0
        { pin with m_requests := [] } hfl rfl).2.2 hev (by decide)
      refine ⟨r, by rw [hW]; exact hr, hto, ?_⟩
      exact ((waitLoop_empty env 0 sample0 user0 { pin with m_requests := [] } hfl rfl).2.1 r hr).1
  · rw [List.concat_eq_append] at hcat
    have hW := fun t => WaitForNext_nonempty pin env t sample0 user0 q rr hfl hcat
    obtain ⟨hto, hnt⟩ := waitOnRequest_cases pin env rr sample0 user0 q
    refine ⟨by rw [hW]; simp, ?_, ?_⟩
    · intro r hr hhr
      rw [hW] at hr
      have hr2 : waitOnRequest { pin with m_requests := q } env rr sample0 user0 = r := by
        simpa using hr
      by_cases hc : env.waitAll = WAIT_TIMEOUT
      · rw [hto hc] at hr2
        subst hr2
        have hpin : ({ pin with m_requests := q ++ [rr] } : CRFSOutputPin) = pin := by
          cases pin
          simp only [CRFSOutputPin.mk.injEq, true_and]
          exact hcat.symm
        exact ⟨by simp [hcat], fun _ => hpin, by simp [hcat], rfl, rfl⟩
      · rw [← hr2] at hhr
        exact absurd hhr (hnt hc).2.2
    · intro hnil
      rw [hcat] at hnil
      simp at hnil

theorem ConvertSample_hr_cases (m_align : Nat) (f : File) (pSample : Option IMediaSample)
    (out : Locals) :
    (ConvertSample m_align f pSample out).1 = E_POINTER ∨
    (ConvertSample m_align f pSample out).1 = E_UNEXPECTED ∨
    (ConvertSample m_align f pSample out).1 = ERROR_HANDLE_EOF ∨
    (ConvertSample m_align f pSample out).1 = S_OK ∨
    ∃ s, pSample = some s ∧
      ((ConvertSample m_align f pSample out).1 = s.getTimeResult ∨
       (ConvertSample m_align f pSample out).1 = s.getPointerResult) := by
  unfold ConvertSample
  cases pSample with
  | none => simp
  | some s =>
    simp only
    split_ifs <;> simp

theorem Request_hr_cases (pin : CRFSOutputPin) (env : RequestEnv)
    (pSample : Option IMediaSample) (tok : Nat) (hfl : pin.m_flush = false) :
    (Request pin env pSample tok).hr = E_UNEXPECTED ∨
    (Request pin env pSample tok).hr = E_POINTER ∨
    (Request pin env pSample tok).hr = VFW_E_BADALIGN ∨
    (Request pin env pSample tok).hr = S_FALSE ∨
    (Request pin env pSample tok).hr = E_OUTOFMEMORY ∨
    (Request pin env pSample tok).hr = S_OK ∨
    ∃ s, pSample = some s ∧
      ((Request pin env pSample tok).hr = s.getTimeResult ∨
       (Request pin env pSample tok).hr = s.getPointerResult) := by
  unfold Request
  simp only [hfl, Bool.false_eq_true, if_false]
  cases hf : pin.m_file with
  | none => simp
  | some f =>
    simp only
    split
    · rename_i hfail
      rcases ConvertSample_hr_cases pin.m_align f pSample env.uninit with h | h | h | h | h
      · simp [h]
      · simp [h]
      · rw [h] at hfail; exact absurd hfail (by decide)
      · rw [h] at hfail; exact absurd hfail (by decide)
      · simp only
        exact Or.inr (Or.inr (Or.inr (Or.inr (Or.inr (Or.inr h)))))
    · split
      · simp
      · split
        · simp
        · split
          · simp
          · split
            · simp
            · rename_i part rest _
              split
              · simp
              · simp only
                rcases (requestLoop_keeps env.sub
                  (ConvertSample pin.m_align f pSample env.uninit).2.2.pBuffer (part :: rest) 0
                  (toDWORD ((ConvertSample pin.m_align f pSample env.uninit).2.2.llPosition -
                    part.in_file_offset))
                  (part.in_rar_offset + ((toDWORD
                    ((ConvertSample pin.m_align f pSample env.uninit).2.2.llPosition -
                      part.in_file_offset) : Nat) : Int))
                  (ConvertSample pin.m_align f pSample env.uninit).2.2.lLength 0
                  { dwUser := tok,
                    pSample := (ConvertSample pin.m_align f pSample env.uninit).2.1,
                    count := 0, subreqs := [] } []).2.2 with h | h | h
                · simp [h]
                · simp [h]
                · simp [h]

/-- C10: while flushing, every `Request`, for every sample and token, returns
`VFW_E_WRONG_STATE`, issues no physical read and leaves the pin, hence the
pending queue, unchanged; `BeginFlush` starts flushing and `EndFlush` ends it,
and after `EndFlush` a `Request` returns `VFW_E_WRONG_STATE` only when the
sample's own `GetTime` or `GetPointer` returned that value. -/
theorem Request_rejected_while_flushing (pin : CRFSOutputPin) (env : RequestEnv)
    (pSample : Option IMediaSample) (tok : Nat) :
    (BeginFlush pin).2.m_flush = true ∧
    (BeginFlush pin).2.m_requests = pin.m_requests ∧
    (∀ p : CRFSOutputPin, p.m_flush = true →
      (Request p env pSample tok).hr = VFW_E_WRONG_STATE ∧
      (Request p env pSample tok).reads = [] ∧
      (Request p env pSample tok).pin = p) ∧
    (∀ p : CRFSOutputPin, (EndFlush p).2.m_flush = false ∧
      (EndFlush p).2.m_requests = p.m_requests ∧
      ((Request (EndFlush p).2 env pSample tok).hr = VFW_E_WRONG_STATE →
        ∃ s, pSample = some s ∧
          (s.getTimeResult = VFW_E_WRONG_STATE ∨ s.getPointerResult = VFW_E_WRONG_STATE))) := by
  refine ⟨rfl, rfl, ?_, ?_⟩
  · intro p hp
    simp [Request, hp]
  · intro p
    refine ⟨rfl, rfl, ?_⟩
    intro h
    rcases Request_hr_cases (EndFlush p).2 env pSample tok rfl with h1 | h1 | h1 | h1 | h1 | h1 | h1
    · rw [h1] at h; exact absurd h (by decide)
    · rw [h1] at h; exact absurd h (by decide)
    · rw [h1] at h; exact absurd h (by decide)
    · rw [h1] at h; exact absurd h (by decide)
    · rw [h1] at h; exact absurd h (by decide)
    · rw [h1] at h; exact absurd h (by decide)
    · obtain ⟨s, hs, h2⟩ := h1
      refine ⟨s, hs, ?_⟩
      rcases h2 with h2 | h2
      · left; rw [← h2]; exact h
      · right; rw [← h2]; exact h

/-! ## The blocking path against the asynchronous one -/

theorem requestLoop_log (sub : Nat → SubEnv) (pBuffer : Nat) (ps : List FilePart) :
    ∀ (k offset2 : Nat) (offset : Int) (lLength acc : Nat) (req : ReadRequest)
      (reads : List PhysRead),
      requestLoop sub pBuffer ps k offset2 offset lLength acc req reads =
        ((requestLoop sub pBuffer ps k offset2 offset lLength acc req []).1,
         (requestLoop sub pBuffer ps k offset2 offset lLength acc req []).2.1,
         reads ++ (requestLoop sub pBuffer ps k offset2 offset lLength acc req []).2.2) := by
  induction ps with
  | nil => intro k offset2 offset lLength acc req reads; simp [requestLoop]
  | cons part rest ih =>
    intro k offset2 offset lLength acc req reads
    simp only [requestLoop]
    split
    · simp
    · split
      · simp
      · split
        · simp
        · split
          · simp
          · cases rest with
            | nil => simp
            | cons next tail =>
              simp only
              rw [ih, ih _ _ _ _ _ _ ([] ++ _)]
              simp

theorem syncLoop_log (env : SyncEnv) (pBuffer : Nat) (ps : List FilePart) :
    ∀ (k offset2 : Nat) (offset : Int) (lLength acc : Nat) (reads : List PhysRead),
      syncLoop env pBuffer ps k offset2 offset lLength acc reads =
        ((syncLoop env pBuffer ps k offset2 offset lLength acc []).1,
         (syncLoop env pBuffer ps k offset2 offset lLength acc []).2.1,
         reads ++ (syncLoop env pBuffer ps k offset2 offset lLength acc []).2.2) := by
  induction ps with
  | nil => intro k offset2 offset lLength acc reads; simp [syncLoop]
  | cons part rest ih =>
    intro k offset2 offset lLength acc reads
    simp only [syncLoop]
    split
    · simp
    · split
      · simp
      · split
        · simp
        · cases rest with
          | nil => simp
          | cons next tail =>
            simp only
            rw [ih, ih _ _ _ _ _ ([] ++ _)]
            simp

theorem syncLoop_cons (env : SyncEnv) (pBuffer : Nat) (part : FilePart) (rest : List FilePart)
    (k offset2 : Nat) (offset : Int) (lLength acc : Nat) :
    syncLoop env pBuffer (part :: rest) k offset2 offset lLength acc [] =
      if env.readFails k = true ∨ (env.overlapped k).1 = false then
        (S_FALSE, acc,
          [{ file := part.file, buffer := pBuffer + acc, count := minToRead lLength part offset2,
             Offset := toU64 offset % 4294967296, OffsetHigh := toU64 offset / 4294967296 }])
      else if toDWORD ((lLength : Int) - ((env.overlapped k).2 : Int)) = 0 then
        (S_OK, toDWORD ((acc : Int) + ((env.overlapped k).2 : Int)),
          [{ file := part.file, buffer := pBuffer + acc, count := minToRead lLength part offset2,
             Offset := toU64 offset % 4294967296, OffsetHigh := toU64 offset / 4294967296 }])
      else
        match rest with
        | [] =>
          (S_FALSE, toDWORD ((acc : Int) + ((env.overlapped k).2 : Int)),
            [{ file := part.file, buffer := pBuffer + acc,
               count := minToRead lLength part offset2,
               Offset := toU64 offset % 4294967296, OffsetHigh := toU64 offset / 4294967296 }])
        | next :: _ =>
          ((syncLoop env pBuffer rest (k + 1) 0 next.in_rar_offset
              (toDWORD ((lLength : Int) - ((env.overlapped k).2 : Int)))
              (toDWORD ((acc : Int) + ((env.overlapped k).2 : Int))) []).1,
           (syncLoop env pBuffer rest (k + 1) 0 next.in_rar_offset
              (toDWORD ((lLength : Int) - ((env.overlapped k).2 : Int)))
              (toDWORD ((acc : Int) + ((env.overlapped k).2 : Int))) []).2.1,
           { file := part.file, buffer := pBuffer + acc, count := minToRead lLength part offset2,
             Offset := toU64 offset % 4294967296, OffsetHigh := toU64 offset / 4294967296 } ::
           (syncLoop env pBuffer rest (k + 1) 0 next.in_rar_offset
              (toDWORD ((lLength : Int) - ((env.overlapped k).2 : Int)))
              (toDWORD ((acc : Int) + ((env.overlapped k).2 : Int))) []).2.2) := by
  simp only [syncLoop, List.nil_append]
  by_cases h1 : env.readFails k = true
  · simp [h1]
  · by_cases h2 : (env.overlapped k).1 = true
    · simp only [h1, h2, Bool.false_eq_true, if_false, Bool.not_true, or_self]
      split
      · rfl
      · cases rest with
        | nil => rfl
        | cons next tail =>
          simp only
          rw [syncLoop_log]
          rfl
    · simp [h1, h2]

theorem requestLoop_cons_log (sub : Nat → SubEnv) (pBuffer : Nat) (part : FilePart)
    (rest : List FilePart) (k offset2 : Nat) (offset : Int) (lLength acc : Nat)
    (req : ReadRequest)
    (hsub : (sub k).allocOk = true ∧ (sub k).hEvent ≠ 0 ∧
      ((sub k).readFile = none ∨ (sub k).readFile = some ERROR_IO_PENDING ∨
        (sub k).readFile = some ERROR_HANDLE_EOF)) :
    (requestLoop sub pBuffer (part :: rest) k offset2 offset lLength acc req []).2.2 =
      { file := part.file, buffer := pBuffer + acc, count := minToRead lLength part offset2,
        Offset := toU64 offset % 4294967296, OffsetHigh := toU64 offset / 4294967296 } ::
      (if toDWORD ((lLength : Int) - (minToRead lLength part offset2 : Int)) = 0 then []
       else
        match rest with
        | [] => []
        | next :: _ =>
          (requestLoop sub pBuffer rest (k + 1) 0 next.in_rar_offset
            (toDWORD ((lLength : Int) - (minToRead lLength part offset2 : Int)))
            (toDWORD ((acc : Int) + (minToRead lLength part offset2 : Int)))
            { req with
              subreqs := InsertLast req.subreqs
                { file := part.file, expected := minToRead lLength part offset2,
                  o := { hEvent := (sub k).hEvent, Offset := toU64 offset % 4294967296,
                         OffsetHigh := toU64 offset / 4294967296 } }
              count := req.count + 1 } []).2.2) := by
  obtain ⟨ha, he, hr⟩ := hsub
  have hbad : (match (sub k).readFile with
      | none => false
      | some err => err != ERROR_IO_PENDING && err != ERROR_HANDLE_EOF) = false := by
    rcases hr with h | h | h <;> rw [h] <;> decide
  simp only [requestLoop, ha, he, hbad, Bool.not_true, Bool.false_eq_true, if_false,
    List.nil_append, Nat.le_zero_eq]
  split
  · rfl
  · cases rest with
    | nil => rfl
    | cons next tail =>
      simp only
      rw [requestLoop_log]
      rfl

theorem syncLoop_prefix (env : SyncEnv) (sub : Nat → SubEnv) (pBuffer : Nat)
    (hsub : ∀ k, (sub k).allocOk = true ∧ (sub k).hEvent ≠ 0 ∧
      ((sub k).readFile = none ∨ (sub k).readFile = some ERROR_IO_PENDING ∨
        (sub k).readFile = some ERROR_HANDLE_EOF))
    (ps : List FilePart) :
    ∀ (k offset2 : Nat) (offset : Int) (lLength acc : Nat) (req : ReadRequest),
      fullReads env (syncLoop env pBuffer ps k offset2 offset lLength acc []).2.2 k = true →
      (syncLoop env pBuffer ps k offset2 offset lLength acc []).2.2 <+:
        (requestLoop sub pBuffer ps k offset2 offset lLength acc req []).2.2 := by
  induction ps with
  | nil =>
    intro k offset2 offset lLength acc req _
    simp [syncLoop]
  | cons part rest ih =>
    intro k offset2 offset lLength acc req hfull
    rw [syncLoop_cons] at hfull ⊢
    rw [requestLoop_cons_log sub pBuffer part rest k offset2 offset lLength acc req (hsub k)]
    by_cases hfail : env.readFails k = true ∨ (env.overlapped k).1 = false
    · rw [if_pos hfail]
      simp
    · rw [if_neg hfail] at hfull ⊢
      have hnf : env.readFails k = false ∧ (env.overlapped k).1 = true := by
        constructor
        · by_contra h; exact hfail (Or.inl (by simpa using h))
        · by_contra h; exact hfail (Or.inr (by simpa using h))
      by_cases hz : toDWORD ((lLength : Int) - ((env.overlapped k).2 : Int)) = 0
      · rw [if_pos hz]
        simp
      · rw [if_neg hz] at hfull ⊢
        cases rest with
        | nil => simp
        | cons next tail =>
          simp only at hfull ⊢
          simp only [fullReads, hnf.1, hnf.2, Bool.not_true, Bool.or_self, Bool.false_or,
            Bool.and_eq_true, beq_iff_eq] at hfull
          obtain ⟨hread, hrec⟩ := hfull
          rw [hread] at hz hrec ⊢
          rw [if_neg hz]
          simp only [List.cons_prefix_cons, true_and]
          exact ih (k + 1) 0 next.in_rar_offset _ _ _ hrec

theorem syncLoop_clean (env : SyncEnv) (pBuffer : Nat) (ps : List FilePart) :
    ∀ (k offset2 : Nat) (offset : Int) (lLength acc : Nat),
      acc + lLength < 4294967296 → positiveSizes ps → insideFirst ps offset2 → ps ≠ [] →
      cleanReads env (syncLoop env pBuffer ps k offset2 offset lLength acc []).2.2 k = true →
      (syncLoop env pBuffer ps k offset2 offset lLength acc []).2.1 =
        acc + delivered env (syncLoop env pBuffer ps k offset2 offset lLength acc []).2.2 k ∧
      delivered env (syncLoop env pBuffer ps k offset2 offset lLength acc []).2.2 k ≤ lLength ∧
      ((syncLoop env pBuffer ps k offset2 offset lLength acc []).1 = S_OK ↔
        delivered env (syncLoop env pBuffer ps k offset2 offset lLength acc []).2.2 k =
          lLength) := by
  induction ps with
  | nil => intro k offset2 offset lLength acc _ _ _ hne; exact absurd rfl hne
  | cons part rest ih =>
    intro k offset2 offset lLength acc hacc hpos hin _ hclean
    have hsz : (offset2 : Int) < part.size := hin
    obtain ⟨hm1, _, hm3⟩ := minToRead_spec lLength part offset2 (by omega) hsz
    rw [syncLoop_cons] at hclean ⊢
    by_cases hfail : env.readFails k = true ∨ (env.overlapped k).1 = false
    · rw [if_pos hfail] at hclean
      simp only [cleanReads, Bool.and_eq_true, Bool.not_eq_true', decide_eq_true_eq] at hclean
      rcases hfail with h | h
      · rw [hclean.1.1.1] at h; cases h
      · rw [hclean.1.1.2] at h; cases h
    · rw [if_neg hfail] at hclean ⊢
      by_cases hz : toDWORD ((lLength : Int) - ((env.overlapped k).2 : Int)) = 0
      · rw [if_pos hz] at hclean ⊢
        simp only [cleanReads, Bool.and_eq_true, Bool.not_eq_true', decide_eq_true_eq] at hclean
        have hle := hclean.1.2
        rw [toDWORD_sub lLength _ (by omega) (by omega)] at hz
        simp only [delivered, Nat.add_zero, toDWORD_add]
        refine ⟨Nat.mod_eq_of_lt (by omega), by omega, ?_⟩
        constructor
        · intro _; omega
        · intro _; trivial
      · rw [if_neg hz] at hclean ⊢
        cases rest with
        | nil =>
          simp only [cleanReads, Bool.and_eq_true, Bool.not_eq_true', decide_eq_true_eq] at hclean
          have hle := hclean.1.2
          rw [toDWORD_sub lLength _ (by omega) (by omega)] at hz
          simp only [delivered, Nat.add_zero, toDWORD_add]
          refine ⟨Nat.mod_eq_of_lt (by omega), by omega, ?_⟩
          constructor
          · intro h; exact absurd h (by decide)
          · intro h; omega
        | cons next tail =>
          simp only at hclean ⊢
          simp only [cleanReads, Bool.and_eq_true, Bool.not_eq_true', decide_eq_true_eq] at hclean
          obtain ⟨⟨⟨_, _⟩, hle⟩, hrec⟩ := hclean
          rw [toDWORD_sub lLength _ (by omega) (by omega)] at hz hrec ⊢
          rw [toDWORD_add, Nat.mod_eq_of_lt (by omega)] at hrec ⊢
          have hpos2 : positiveSizes (next :: tail) := by
            intro p hp
            exact hpos p (List.mem_cons_of_mem _ hp)
          have hin2 : insideFirst (next :: tail) 0 := by
            have := hpos next (by simp)
            simpa [insideFirst] using this
          obtain ⟨i1, i2, i3⟩ := ih (k + 1) 0 next.in_rar_offset
            (lLength - (env.overlapped k).2) (acc + (env.overlapped k).2)
            (by omega) hpos2 hin2 (by simp) hrec
          simp only [delivered]
          refine ⟨by rw [i1]; omega, by omega, ?_⟩
          rw [i3]
          constructor
          · intro h; omega
          · intro h; omega

/-! ## Requests at the end of the file -/

theorem ConvertSample_position (m_align : Nat) (f : File) (s : IMediaSample) (out : Locals)
    (hnf : FAILED (ConvertSample m_align f (some s) out).1 = false)
    (hle : Int.tdiv s.start UNITS ≤ f.size) :
    (ConvertSample m_align f (some s) out).2.2.llPosition = Int.tdiv s.start UNITS := by
  unfold ConvertSample at hnf ⊢
  simp only at hnf ⊢
  split_ifs at hnf ⊢ <;> first | rfl | omega | simp_all [FAILED, E_UNEXPECTED]

/-- A request whose position is exactly the size of the file is refused: the
result is not `S_OK`, no physical read is issued and the pending queue is
left as it was. -/
theorem Request_at_size_rejected (pin : CRFSOutputPin) (env : RequestEnv) (s : IMediaSample)
    (tok : Nat) (f : File) (hf : pin.m_file = some f) (hwf : f.wellFormed)
    (hpos : Int.tdiv s.start UNITS = f.size) :
    (Request pin env (some s) tok).hr ≠ S_OK ∧
    (Request pin env (some s) tok).reads = [] ∧
    (Request pin env (some s) tok).pin.m_requests = pin.m_requests := by
  by_cases hfl : pin.m_flush = true
  · simp [Request, hfl, S_OK, VFW_E_WRONG_STATE]
  have hfl2 : pin.m_flush = false := by simpa using hfl
  unfold Request
  simp only [hfl2, hf, Bool.false_eq_true, if_false]
  split
  · rename_i hfail
    refine ⟨?_, rfl, rfl⟩
    intro h
    simp only at h
    rw [h] at hfail
    exact absurd hfail (by decide)
  · rename_i hfail
    have hnf : FAILED (ConvertSample pin.m_align f (some s) env.uninit).1 = false := by
      simpa using hfail
    have hp := ConvertSample_position pin.m_align f s env.uninit hnf (le_of_eq hpos)
    split
    · refine ⟨?_, rfl, rfl⟩
      show VFW_E_BADALIGN ≠ S_OK
      decide
    · rw [hp, hpos, FindStartPart_at_end f hwf]
      simp [S_OK, S_FALSE]

/-! ## Tiling of a request over parts whose in-part offsets fit 32 bits -/

theorem requestLoop_cons_benign (sub : Nat → SubEnv) (pBuffer : Nat) (part : FilePart)
    (rest : List FilePart) (k offset2 : Nat) (offset : Int) (lLength acc : Nat)
    (req : ReadRequest)
    (hsub : (sub k).allocOk = true ∧ (sub k).hEvent ≠ 0 ∧
      ((sub k).readFile = none ∨ (sub k).readFile = some ERROR_IO_PENDING ∨
        (sub k).readFile = some ERROR_HANDLE_EOF)) :
    ((requestLoop sub pBuffer (part :: rest) k offset2 offset lLength acc req []).1,
     (requestLoop sub pBuffer (part :: rest) k offset2 offset lLength acc req []).2.2) =
      if toDWORD ((lLength : Int) - (minToRead lLength part offset2 : Int)) = 0 then
        (S_OK,
          [{ file := part.file, buffer := pBuffer + acc, count := minToRead lLength part offset2,
             Offset := toU64 offset % 4294967296, OffsetHigh := toU64 offset / 4294967296 }])
      else
        match rest with
        | [] =>
          (S_FALSE,
            [{ file := part.file, buffer := pBuffer + acc,
               count := minToRead lLength part offset2,
               Offset := toU64 offset % 4294967296, OffsetHigh := toU64 offset / 4294967296 }])
        | next :: _ =>
          ((requestLoop sub pBuffer rest (k + 1) 0 next.in_rar_offset
              (toDWORD ((lLength : Int) - (minToRead lLength part offset2 : Int)))
              (toDWORD ((acc : Int) + (minToRead lLength part offset2 : Int)))
              { req with
                subreqs := InsertLast req.subreqs
                  { file := part.file, expected := minToRead lLength part offset2,
                    o := { hEvent := (sub k).hEvent, Offset := toU64 offset % 4294967296,
                           OffsetHigh := toU64 offset / 4294967296 } }
                count := req.count + 1 } []).1,
           { file := part.file, buffer := pBuffer + acc, count := minToRead lLength part offset2,
             Offset := toU64 offset % 4294967296, OffsetHigh := toU64 offset / 4294967296 } ::
           (requestLoop sub pBuffer rest (k + 1) 0 next.in_rar_offset
              (toDWORD ((lLength : Int) - (minToRead lLength part offset2 : Int)))
              (toDWORD ((acc : Int) + (minToRead lLength part offset2 : Int)))
              { req with
                subreqs := InsertLast req.subreqs
                  { file := part.file, expected := minToRead lLength part offset2,
                    o := { hEvent := (sub k).hEvent, Offset := toU64 offset % 4294967296,
                           OffsetHigh := toU64 offset / 4294967296 } }
                count := req.count + 1 } []).2.2) := by
  obtain ⟨ha, he, hr⟩ := hsub
  have hbad : (match (sub k).readFile with
      | none => false
      | some err => err != ERROR_IO_PENDING && err != ERROR_HANDLE_EOF) = false := by
    rcases hr with h | h | h <;> rw [h] <;> decide
  simp only [requestLoop, ha, he, hbad, Bool.not_true, Bool.false_eq_true, if_false,
    List.nil_append, Nat.le_zero_eq]
  split
  · rfl
  · cases rest with
    | nil => rfl
    | cons next tail =>
      simp only
      rw [requestLoop_log]
      rfl

theorem tilesFrom_nil (ps : List FilePart) (v : Int) (dest : Nat) :
    tilesFrom ps v dest [] = True := by
  cases ps <;> rfl

theorem tilesFrom_cons (p : FilePart) (ps : List FilePart) (v : Int) (dest : Nat)
    (r : PhysRead) (rs : List PhysRead) :
    tilesFrom (p :: ps) v dest (r :: rs) =
      (r.file = p.file ∧ p.in_file_offset ≤ v ∧ v < p.in_file_offset + p.size ∧
        (r.position : Int) = p.in_rar_offset + (v - p.in_file_offset) ∧
        r.buffer = dest ∧ v + (r.count : Int) ≤ p.in_file_offset + p.size ∧
        tilesFrom ps (v + (r.count : Int)) (dest + r.count) rs) := rfl

theorem requestLoop_tiles (sub : Nat → SubEnv) (pBuffer : Nat)
    (hsub : ∀ k, (sub k).allocOk = true ∧ (sub k).hEvent ≠ 0 ∧
      ((sub k).readFile = none ∨ (sub k).readFile = some ERROR_IO_PENDING ∨
        (sub k).readFile = some ERROR_HANDLE_EOF))
    (ps : List FilePart) :
    ∀ (k offset2 : Nat) (offset : Int) (lLength acc : Nat) (req : ReadRequest) (s0 : Int),
      contiguousFrom s0 ps → physicalRange ps → acc + lLength < 4294967296 →
      insideFirst ps offset2 → startsAt ps offset2 offset →
      tilesFrom ps (s0 + (offset2 : Int)) (pBuffer + acc)
        (requestLoop sub pBuffer ps k offset2 offset lLength acc req []).2.2 ∧
      countSum (requestLoop sub pBuffer ps k offset2 offset lLength acc req []).2.2 ≤ lLength ∧
      ((requestLoop sub pBuffer ps k offset2 offset lLength acc req []).1 = S_OK →
        countSum (requestLoop sub pBuffer ps k offset2 offset lLength acc req []).2.2 =
          lLength) := by
  induction ps with
  | nil =>
    intro k offset2 offset lLength acc req s0 _ _ _ _ _
    simp [requestLoop, tilesFrom, countSum, S_OK, S_FALSE]
  | cons part rest ih =>
    intro k offset2 offset lLength acc req s0 hc hphys hacc hin hst
    obtain ⟨hc1, hc2, hc3⟩ := hc
    have hsz : (offset2 : Int) < part.size := hin
    have hoff : offset = part.in_rar_offset + (offset2 : Int) := hst
    obtain ⟨hm1, hm2, hm3⟩ := minToRead_spec lLength part offset2 (by omega) hsz
    obtain ⟨hp1, hp2⟩ := hphys part (by simp)
    have hcons := requestLoop_cons_benign sub pBuffer part rest k offset2 offset lLength acc req
      (hsub k)
    have hfst := congrArg Prod.fst hcons
    have hsnd := congrArg Prod.snd hcons
    simp only at hfst hsnd
    rw [hfst, hsnd]
    rw [toDWORD_sub lLength _ (by omega) hm1]
    have hposn : ((PhysRead.position ⟨part.file, pBuffer + acc, minToRead lLength part offset2,
        toU64 offset % 4294967296, toU64 offset / 4294967296⟩ : Nat) : Int) =
        part.in_rar_offset + (s0 + (offset2 : Int) - part.in_file_offset) := by
      simp only [PhysRead.position, toU64]
      omega
    by_cases hz : lLength - minToRead lLength part offset2 = 0
    · simp only [hz, if_true]
      refine ⟨?_, ?_, ?_⟩
      · rw [tilesFrom_cons]
        dsimp only
        exact ⟨rfl, by omega, by omega, hposn, rfl, by omega, by rw [tilesFrom_nil]; trivial⟩
      · simp only [countSum, List.map, List.sum_cons, List.sum_nil]; omega
      · intro _
        simp only [countSum, List.map, List.sum_cons, List.sum_nil]; omega
    · simp only [hz, if_false]
      cases rest with
      | nil =>
        dsimp only
        refine ⟨?_, ?_, ?_⟩
        · rw [tilesFrom_cons]
          dsimp only
          exact ⟨rfl, by omega, by omega, hposn, rfl, by omega, by rw [tilesFrom_nil]; trivial⟩
        · simp only [countSum, List.map, List.sum_cons, List.sum_nil]; omega
        · intro h
          exact absurd h (by decide)
      | cons next tail =>
        simp only
        have hlt : minToRead lLength part offset2 < lLength := by omega
        have heq := hm3 hlt
        have hphys2 : physicalRange (next :: tail) := by
          intro p hp
          exact hphys p (List.mem_cons_of_mem _ hp)
        have hin2 : insideFirst (next :: tail) 0 := by
          have := hc3.2.1
          simpa [insideFirst] using this
        have hst2 : startsAt (next :: tail) 0 next.in_rar_offset := by
          simp [startsAt]
        have hacc1 : toDWORD ((acc : Int) + (minToRead lLength part offset2 : Int)) =
            acc + minToRead lLength part offset2 := by
          rw [toDWORD_add]
          exact Nat.mod_eq_of_lt (by omega)
        rw [hacc1]
        obtain ⟨i1, i2, i3⟩ := ih (k + 1) 0 next.in_rar_offset
          (lLength - minToRead lLength part offset2) (acc + minToRead lLength part offset2)
          { req with
            subreqs := InsertLast req.subreqs
              { file := part.file, expected := minToRead lLength part offset2,
                o := { hEvent := (sub k).hEvent, Offset := toU64 offset % 4294967296,
                       OffsetHigh := toU64 offset / 4294967296 } }
            count := req.count + 1 }
          (s0 + part.size) hc3 hphys2 (by omega) hin2 hst2
        refine ⟨?_, ?_, ?_⟩
        · rw [tilesFrom_cons]
          dsimp only
          refine ⟨rfl, by omega, by omega, hposn, rfl, by omega, ?_⟩
          have e1 : s0 + (offset2 : Int) + (minToRead lLength part offset2 : Int) =
              s0 + part.size + ((0 : Nat) : Int) := by
            simp only [Nat.cast_zero, add_zero]
            omega
          have e2 : pBuffer + acc + minToRead lLength part offset2 =
              pBuffer + (acc + minToRead lLength part offset2) := by omega
          rw [e1, e2]
          exact i1
        · simp only [countSum, List.map, List.sum_cons] at i2 ⊢
          omega
        · intro h
          have := i3 h
          simp only [countSum, List.map, List.sum_cons] at this ⊢
          omega

theorem Request_run (pin : CRFSOutputPin) (env : RequestEnv) (s s1 : IMediaSample)
    (tok : Nat) (f : File) (o : Int) (len buf t : Nat) (p : FilePart)
    (hfl : pin.m_flush = false) (hf : pin.m_file = some f)
    (hcs : ConvertSample pin.m_align f (some s) env.uninit = (S_OK, some s1, ⟨o, len, buf⟩))
    (halign : (IsAligned pin.m_align o && IsAligned pin.m_align (len : Int) &&
      IsAligned pin.m_align (buf : Int)) = true)
    (halloc : env.allocOk = true)
    (ht : (FindStartPart f pin.m_prev_part o).1 = (t : Int)) (hp : f.array[t]? = some p) :
    (Request pin env (some s) tok).hr =
      (requestLoop env.sub buf (p :: f.array.drop (t + 1)) 0 (toDWORD (o - p.in_file_offset))
        (p.in_rar_offset + ((toDWORD (o - p.in_file_offset) : Nat) : Int)) len 0
        { dwUser := tok, pSample := some s1, count := 0, subreqs := [] } []).1 ∧
    (Request pin env (some s) tok).reads =
      (requestLoop env.sub buf (p :: f.array.drop (t + 1)) 0 (toDWORD (o - p.in_file_offset))
        (p.in_rar_offset + ((toDWORD (o - p.in_file_offset) : Nat) : Int)) len 0
        { dwUser := tok, pSample := some s1, count := 0, subreqs := [] } []).2.2 := by
  have hdrop := drop_of_getElem? f.array t p hp
  have hne1 : ((t : Int) == -1) = false := by
    simp only [beq_eq_false_iff_ne, ne_eq]
    omega
  have hfailed : FAILED S_OK = false := by decide
  unfold Request
  simp only [hfl, hf, hcs, hfailed, halign, ht, hne1, halloc, Int.toNat_ofNat, hdrop,
    Bool.false_eq_true, if_false, Bool.not_true]
  split
  · rename_i h
    exact ⟨(by simpa using h : _ = S_OK).symm, rfl⟩
  · exact ⟨rfl, rfl⟩

/-- Over a well-formed table whose parts are at most 4 GiB long, the reads of
an accepted request tile its virtual range: they go to consecutive parts
starting with the part that contains the offset, each at the part's physical
base plus the offset inside the part, into consecutive pieces of the buffer,
and their counts sum to the length. -/
theorem Request_tiles (pin : CRFSOutputPin) (env : RequestEnv) (s s1 : IMediaSample)
    (tok : Nat) (f : File) (o : Int) (len buf : Nat)
    (hfl : pin.m_flush = false) (hf : pin.m_file = some f) (hwf : f.wellFormed)
    (henv : env.benign)
    (hcs : ConvertSample pin.m_align f (some s) env.uninit = (S_OK, some s1, ⟨o, len, buf⟩))
    (halign : (IsAligned pin.m_align o && IsAligned pin.m_align (len : Int) &&
      IsAligned pin.m_align (buf : Int)) = true)
    (hlen : (len : Int) ≤ LONG_MAX)
    (hsmall : ∀ p, p ∈ f.array → p.size ≤ 4294967296) (hphys : physicalRange f.array)
    (ho : 0 ≤ o) (hstart : o < f.size) (hend : o + (len : Int) ≤ f.size) :
    (Request pin env (some s) tok).hr = S_OK ∧
    ∃ t : Nat, covers f t o ∧
      tilesFrom (f.array.drop t) o buf (Request pin env (some s) tok).reads ∧
      countSum (Request pin env (some s) tok).reads = len := by
  obtain ⟨t, p, hp, hlo, hhi⟩ :=
    contiguous_exists f.array 0 hwf.1 o ho (by have := hwf.2; omega)
  have hcov : covers f t o := ⟨p, hp, hlo, hhi⟩
  have hfsp := FindStartPart_of_covers f hwf pin.m_prev_part t o hcov
  have hdrop := drop_of_getElem? f.array t p hp
  have htot := contiguous_drop_total f.array 0 hwf.1 t p hp
  have hmem : p ∈ f.array := List.getElem?_mem hp
  have hsm := hsmall p hmem
  have hoff2 : ((toDWORD (o - p.in_file_offset) : Nat) : Int) = o - p.in_file_offset :=
    toDWORD_of_range _ (by omega) (by omega)
  have hlen2 : len < 2147483648 := by
    unfold LONG_MAX at hlen
    omega
  obtain ⟨hhr, hreads⟩ := Request_run pin env s s1 tok f o len buf t p hfl hf hcs halign henv.1
    (by rw [hfsp]) hp
  have hps : positiveSizes (p :: f.array.drop (t + 1)) := by
    rw [← hdrop]
    exact positiveSizes_drop _ _ (positiveSizes_of_contiguous _ _ hwf.1)
  have hin : insideFirst (p :: f.array.drop (t + 1)) (toDWORD (o - p.in_file_offset)) := by
    show ((toDWORD (o - p.in_file_offset) : Nat) : Int) < p.size
    omega
  have hok := requestLoop_succeeds env.sub buf henv.2 (p :: f.array.drop (t + 1)) 0
    (toDWORD (o - p.in_file_offset))
    (p.in_rar_offset + ((toDWORD (o - p.in_file_offset) : Nat) : Int)) len 0
    { dwUser := tok, pSample := some s1, count := 0, subreqs := [] } []
    (by omega) hps (by simp) hin (by
      rw [← hdrop]
      have := hwf.2
      omega)
  have hcont : contiguousFrom p.in_file_offset (p :: f.array.drop (t + 1)) := by
    rw [← hdrop]
    exact contiguous_drop f.array 0 hwf.1 t p hp
  have hphys2 : physicalRange (p :: f.array.drop (t + 1)) := by
    rw [← hdrop]
    intro q hq
    exact hphys q (List.mem_of_mem_drop hq)
  obtain ⟨i1, _, i3⟩ := requestLoop_tiles env.sub buf henv.2 (p :: f.array.drop (t + 1)) 0
    (toDWORD (o - p.in_file_offset))
    (p.in_rar_offset + ((toDWORD (o - p.in_file_offset) : Nat) : Int)) len 0
    { dwUser := tok, pSample := some s1, count := 0, subreqs := [] } p.in_file_offset
    hcont hphys2 (by omega) hin rfl
  refine ⟨by rw [hhr]; exact hok, t, hcov, ?_, ?_⟩
  · rw [hreads, hdrop]
    have e : p.in_file_offset + ((toDWORD (o - p.in_file_offset) : Nat) : Int) = o := by omega
    rw [e] at i1
    simpa using i1
  · rw [hreads]
    exact i3 hok

/-! ## Concrete facts -/

theorem fileAB_wellFormed : fileAB.wellFormed :=
  ⟨⟨rfl, by decide, rfl, by decide, trivial⟩, rfl⟩

theorem envOk_benign (u : Locals) : (envOk u).benign :=
  ⟨rfl, fun k => ⟨rfl, Nat.succ_ne_zero k, Or.inr (Or.inl rfl)⟩⟩

/-! ## Properties at concrete inputs -/

theorem FindStartPart_locates_witness :
    fileAB.wellFormed ∧ cacheValid fileAB (some 1) ∧
    ((∀ o : Int, 0 ≤ o → o < fileAB.size →
      ∃ i : Nat, (FindStartPart fileAB (some 1) o).1 = (i : Int) ∧ covers fileAB i o ∧
        ∀ j : Nat, covers fileAB j o → j = i) ∧
    (FindStartPart fileAB (some 1) fileAB.size).1 = -1 ∧
    (∀ c2 : Option Nat, cacheValid fileAB c2 → ∀ o : Int, 0 ≤ o → o ≤ fileAB.size →
      (FindStartPart fileAB c2 o).1 = (FindStartPart fileAB (some 1) o).1)) :=
  ⟨fileAB_wellFormed, by intro i h; cases h; decide,
    FindStartPart_locates fileAB fileAB_wellFormed (some 1) (by intro i h; cases h; decide)⟩

theorem Request_WaitForNext_round_trip_witness :
    ∃ (rr : ReadRequest) (res : WaitResult) (s1 : IMediaSample),
      (Request (pinAB 1) (envOk ⟨0, 0, 0⟩) (some (sampleOf 90 120)) 5).pin.m_requests = [rr] ∧
      WaitForNext (Request (pinAB 1) (envOk ⟨0, 0, 0⟩) (some (sampleOf 90 120)) 5).pin
          ⟨WAIT_OBJECT_0, fun k => if k = 0 then (true, 10) else (true, 20)⟩ 0
          (some none) (some 0) = some (.returned res) ∧
      res.hr = S_OK ∧ res.pdwUser = some 5 ∧ res.ppSample = some (some s1) ∧
      s1.addr = (sampleOf 90 120).addr ∧
      s1.actualDataLength = toLONG (expectedSum rr.subreqs) ∧
      expectedSum rr.subreqs =
        (ConvertSample (pinAB 1).m_align fileAB (some (sampleOf 90 120))
          (envOk ⟨0, 0, 0⟩).uninit).2.2.lLength ∧
      ((expectedSum rr.subreqs : Int) ≤ LONG_MAX →
        s1.actualDataLength = (expectedSum rr.subreqs : Int)) ∧
      res.pin.m_requests = [] :=
  Request_WaitForNext_round_trip (pinAB 1) (envOk ⟨0, 0, 0⟩)
    ⟨WAIT_OBJECT_0, fun k => if k = 0 then (true, 10) else (true, 20)⟩ (sampleOf 90 120) 5 0
    fileAB none 0 rfl fileAB_wellFormed (by decide) rfl rfl (by decide) (by decide) (by decide)

/-- C4 (failing input): with alignment 4 the size 150 of `fileAB` rounds up
to 152, and the aligned request for [148, 152) ends exactly there.
`ConvertSample` passes it on unclipped; `Request` issues the read of the two
bytes that exist, runs out of parts, returns `S_FALSE` and queues nothing.
`SyncRead` on the same range reports the two bytes read. -/
theorem Request_rejects_rounded_end :
    (IsAligned 4 148 && IsAligned 4 4 && IsAligned 4 4096) = true ∧
    (148 : Int) + 4 = alignUp 4 fileAB.size ∧
    ConvertSample 4 fileAB (some (sampleOf 148 152)) ⟨0, 0, 0⟩ =
      (S_OK, some (sampleOf 148 152), ⟨148, 4, 4096⟩) ∧
    (Request (pinAB 4) (envOk ⟨0, 0, 0⟩) (some (sampleOf 148 152)) 5).hr = S_FALSE ∧
    (Request (pinAB 4) (envOk ⟨0, 0, 0⟩) (some (sampleOf 148 152)) 5).reads =
      [{ file := 2, buffer := 4096, count := 2, Offset := 68, OffsetHigh := 0 }] ∧
    (Request (pinAB 4) (envOk ⟨0, 0, 0⟩) (some (sampleOf 148 152)) 5).pin.m_requests = [] ∧
    (SyncRead (pinAB 4) (syncEnv 2 0) 148 4 (some 4096) (some 0)).hr = S_FALSE ∧
    (SyncRead (pinAB 4) (syncEnv 2 0) 148 4 (some 4096) (some 0)).cbActual = some 2 := by
  decide

/-- Acceptance at an aligned end of file: when the alignment is a power of two
and the total size is a multiple of it, every request that passes the
alignment check, starts inside the file and ends at the total size rounded up
to the alignment is accepted: `Request` returns `S_OK` and puts one
`ReadRequest` carrying the caller's token into the pending queue. -/
theorem Request_accepts_end_at_aligned_size (pin : CRFSOutputPin) (env : RequestEnv)
    (s : IMediaSample) (tok : Nat) (f : File) (k : Nat)
    (hfl : pin.m_flush = false) (hf : pin.m_file = some f) (hwf : f.wellFormed)
    (henv : env.benign)
    (hgt : 0 ≤ s.getTimeResult) (hst : 0 ≤ s.start) (hgp : 0 ≤ s.getPointerResult)
    (hlen0 : 0 ≤ Int.tdiv (s.stop - s.start) UNITS)
    (hlen1 : Int.tdiv (s.stop - s.start) UNITS ≤ LONG_MAX)
    (halign : (IsAligned pin.m_align (Int.tdiv s.start UNITS) &&
      IsAligned pin.m_align (Int.tdiv (s.stop - s.start) UNITS) &&
      IsAligned pin.m_align (s.pointer : Int)) = true)
    (hpow : pin.m_align = 2 ^ k) (hk : k ≤ 31)
    (hsize : f.size < 4611686018427387904)
    (hmul : f.size % ((2 ^ k : Nat) : Int) = 0)
    (hstart : Int.tdiv s.start UNITS < f.size)
    (hend : Int.tdiv s.start UNITS + Int.tdiv (s.stop - s.start) UNITS =
      alignUp pin.m_align f.size) :
    (Request pin env (some s) tok).hr = S_OK ∧
    ∃ rr : ReadRequest,
      (Request pin env (some s) tok).pin.m_requests = rr :: pin.m_requests ∧
      rr.dwUser = tok := by
  have h0 : 0 ≤ f.size := by
    have := tdiv_nonneg_of_nonneg s.start hst
    omega
  rw [hpow, alignUp_of_multiple k f.size hk h0 hsize hmul] at hend
  have hok := Request_inside_ok pin env s tok f hfl hf hwf henv hgt hst hgp hlen0 hlen1 halign
    hstart (le_of_eq hend)
  have hcs := ConvertSample_inside pin.m_align f s env.uninit hgt hst hlen0 hlen1 hgp
    (le_of_eq hend)
  obtain ⟨_, rr, hpin, _, hrr, _⟩ := Request_ok_inv pin env (some s) tok f hf hwf
    (by rw [hcs]; exact toDWORD_lt _) hok
  exact ⟨hok, rr, by rw [hpin], hrr⟩

theorem Request_accepts_end_at_aligned_size_witness :
    (Request (pinAB 2) (envOk ⟨0, 0, 0⟩) (some (sampleOf 148 150)) 5).hr = S_OK ∧
    ∃ rr : ReadRequest,
      (Request (pinAB 2) (envOk ⟨0, 0, 0⟩) (some (sampleOf 148 150)) 5).pin.m_requests =
        rr :: (pinAB 2).m_requests ∧
      rr.dwUser = 5 :=
  Request_accepts_end_at_aligned_size (pinAB 2) (envOk ⟨0, 0, 0⟩) (sampleOf 148 150) 5 fileAB 1
    rfl rfl fileAB_wellFormed (envOk_benign _) (by decide) (by decide) (by decide) (by decide)
    (by decide) (by decide) (by decide) (by decide) (by decide) (by decide) (by decide)
    (by decide)

theorem fileBig_wellFormed : fileBig.wellFormed :=
  ⟨⟨rfl, by decide, rfl, by decide, trivial⟩, rfl⟩

theorem flush_drains_queue_witness :
    (runWaits (BeginFlush pinQ2).2 [waitCall 0 10, waitCall 0 10]).1.map
        (fun cr => (cr.2.hr, cr.2.pdwUser, cr.2.ppSample)) =
      pinQ2.m_requests.reverse.map (fun rr => (VFW_E_TIMEOUT, some rr.dwUser, some rr.pSample)) ∧
    (runWaits (BeginFlush pinQ2).2 [waitCall 0 10, waitCall 0 10]).1.map
        (fun cr => cr.2.pin.m_requests.reverse) = pinQ2.m_requests.reverse.tails.tail ∧
    (runWaits (BeginFlush pinQ2).2 [waitCall 0 10, waitCall 0 10]).2.m_requests = [] ∧
    (∃ r : WaitResult,
      WaitForNext (runWaits (BeginFlush pinQ2).2 [waitCall 0 10, waitCall 0 10]).2
        (waitCall 0 10).env (waitCall 0 10).dwTimeout
        (some (waitCall 0 10).sample0) (some (waitCall 0 10).user0) = some (.returned r) ∧
      r.ppSample = some none ∧ r.pin.m_requests = []) ∧
    (∀ (pin0 : CRFSOutputPin) (calls : List RequestCall), pin0.m_requests = [] →
      (∀ hr, hr ∈ (runRequests pin0 calls).1 → hr = S_OK) →
      pinQ2 = (runRequests pin0 calls).2 →
      (runWaits (BeginFlush pinQ2).2 [waitCall 0 10, waitCall 0 10]).1.map
          (fun cr => cr.2.pdwUser) =
        calls.map (fun c => some c.dwUser)) :=
  flush_drains_queue pinQ2 [waitCall 0 10, waitCall 0 10] (waitCall 0 10) (by decide)

theorem WaitForNext_timeout_atomic_witness :
    WaitForNext pinQ2 (waitCall WAIT_TIMEOUT 10).env 0 (some none) (some 0) ≠ none ∧
    (∀ r, WaitForNext pinQ2 (waitCall WAIT_TIMEOUT 10).env 0 (some none) (some 0) =
        some (.returned r) →
      r.hr = VFW_E_TIMEOUT →
      r.pin.m_requests = pinQ2.m_requests ∧ (pinQ2.m_requests ≠ [] → r.pin = pinQ2) ∧
      UnlinkLast r.pin.m_requests = UnlinkLast pinQ2.m_requests ∧
      r.ppSample = some none ∧ r.pdwUser = some 0) ∧
    (pinQ2.m_requests = [] → pinQ2.m_event ≠ none →
      ∃ r, WaitForNext pinQ2 (waitCall WAIT_TIMEOUT 10).env 0 (some none) (some 0) =
          some (.returned r) ∧
        r.hr = VFW_E_TIMEOUT ∧ r.pin.m_requests = []) :=
  WaitForNext_timeout_atomic pinQ2 (waitCall WAIT_TIMEOUT 10).env 0 none 0 (by decide)

theorem queue_is_fifo_witness :
    (runRequests (pinAB 1) [requestCall 0 10 7, requestCall 10 20 8]).2.m_requests.map
        (fun rr => rr.dwUser) =
      ([requestCall 0 10 7, requestCall 10 20 8].map (fun c => c.dwUser)).reverse ∧
    handedBack (runWaits (runRequests (pinAB 1) [requestCall 0 10 7, requestCall 10 20 8]).2
        [waitCall WAIT_TIMEOUT 10, waitCall 0 10, waitCall WAIT_TIMEOUT 10, waitCall 0 10]).1 =
      (([requestCall 0 10 7, requestCall 10 20 8].map (fun c => c.dwUser)).take
        (completions
          [waitCall WAIT_TIMEOUT 10, waitCall 0 10, waitCall WAIT_TIMEOUT 10, waitCall 0 10])).map
        some :=
  queue_is_fifo (pinAB 1) [requestCall 0 10 7, requestCall 10 20 8]
    [waitCall WAIT_TIMEOUT 10, waitCall 0 10, waitCall WAIT_TIMEOUT 10, waitCall 0 10]
    rfl rfl (by decide) (by decide)

/-- C3 (failing input): a sample at position 200 of the 150-byte file that
asks for 60 bytes.  `ConvertSample` returns `ERROR_HANDLE_EOF` (38), which
`FAILED` lets through, so `Request` runs on what its locals hold (position 0,
length 10, buffer 4096), queues a request of 10 bytes and returns `S_OK`.  The
one sub-read delivers its 10 expected bytes, and `WaitForNext` returns `S_OK`
with the token and the sample, whose actual data length it sets to 10, not to
the 60 bytes requested. -/
theorem round_trip_past_end_wrong_length :
    (pinAB 1).m_requests = [] ∧ (pinAB 1).m_flush = false ∧
    Int.tdiv ((sampleOf 200 260).stop - (sampleOf 200 260).start) UNITS = 60 ∧
    (Request (pinAB 1) (envOk ⟨0, 10, 4096⟩) (some (sampleOf 200 260)) 5).hr = S_OK ∧
    (∀ rr, rr ∈ (Request (pinAB 1) (envOk ⟨0, 10, 4096⟩) (some (sampleOf 200 260)) 5).pin.m_requests →
      fullDelivery (fun _ => (true, 10)) rr.subreqs 0 = true) ∧
    (Request (pinAB 1) (envOk ⟨0, 10, 4096⟩) (some (sampleOf 200 260)) 5).pin.m_requests.map
      (fun rr => expectedSum rr.subreqs) = [10] ∧
    handedOver (WaitForNext
        (Request (pinAB 1) (envOk ⟨0, 10, 4096⟩) (some (sampleOf 200 260)) 5).pin
        ⟨WAIT_OBJECT_0, fun _ => (true, 10)⟩ 0 (some none) (some 0)) =
      some (S_OK, some 5, some (some { sampleOf 200 260 with actualDataLength := 10 })) := by
  decide

/-- C2 (failing input): over `fileBig`, whose first part is larger than
4 GiB, the request for the 30 bytes at [4294967386, 4294967416) straddles the
two parts: 10 bytes at in-part offset 4294967386 of A and 20 bytes at the
start of B.  `Request` returns `S_OK` after issuing one read of 30 bytes at
physical offset 110 of A, the in-part offset having been cut to 32 bits.  On
the two-part table of 100 and 50 bytes the reads are the two expected ones. -/
theorem Request_truncates_part_offset :
    fileBig.wellFormed ∧
    (4294967386 : Int) + 30 ≤ fileBig.size ∧
    (Request pinBig (envOk ⟨0, 0, 0⟩) (some (sampleOf 4294967386 4294967416)) 5).hr = S_OK ∧
    (Request pinBig (envOk ⟨0, 0, 0⟩) (some (sampleOf 4294967386 4294967416)) 5).reads =
      [{ file := 1, buffer := 4096, count := 30, Offset := 110, OffsetHigh := 0 }] ∧
    (Request (pinAB 1) (envOk ⟨0, 0, 0⟩) (some (sampleOf 90 120)) 5).reads =
      [{ file := 1, buffer := 4096, count := 10, Offset := 110, OffsetHigh := 0 },
       { file := 2, buffer := 4106, count := 20, Offset := 20, OffsetHigh := 0 }] := by
  refine ⟨fileBig_wellFormed, ?_, ?_, ?_, ?_⟩ <;> decide

/-- C8 (failing input): a sample at position 200 of the 150-byte file.
`ConvertSample` returns the Win32 code `ERROR_HANDLE_EOF` (38), which `FAILED`
does not count as a failure, and leaves the locals of `Request` unwritten;
when they hold position 0, length 10 and buffer 4096, `Request` issues a read
of 10 bytes, queues a request and returns `S_OK`. -/
theorem Request_past_end_not_rejected :
    (ConvertSample 1 fileAB (some (sampleOf 200 210)) ⟨0, 10, 4096⟩).1 = ERROR_HANDLE_EOF ∧
    (ConvertSample 1 fileAB (some (sampleOf 200 210)) ⟨0, 10, 4096⟩).2.2 = ⟨0, 10, 4096⟩ ∧
    FAILED ERROR_HANDLE_EOF = false ∧
    (Request (pinAB 1) (envOk ⟨0, 10, 4096⟩) (some (sampleOf 200 210)) 5).hr = S_OK ∧
    (Request (pinAB 1) (envOk ⟨0, 10, 4096⟩) (some (sampleOf 200 210)) 5).reads =
      [{ file := 1, buffer := 4096, count := 10, Offset := 20, OffsetHigh := 0 }] ∧
    (Request (pinAB 1) (envOk ⟨0, 10, 4096⟩) (some (sampleOf 200 210)) 5).pin.m_requests.map
      (fun rr => rr.dwUser) = [5] := by
  decide

/-- C9 (failing input): on `fileAB`, reading the 30 bytes at [90, 120) with
the first physical read delivering 5 of the 10 bytes asked and no error,
`SyncRead` next asks part B for 25 bytes at buffer offset 5, whereas the
second segment of `Request` is 20 bytes at buffer offset 10: the reads of
`SyncRead` are not a prefix of the segments of `Request`, and `SyncRead`
returns `S_OK` with `cbActual` 30.  On the same short delivery `WaitForNext`
stops at the sub-read whose count differs from the expected one and returns
`S_FALSE` with 5 bytes. -/
theorem SyncRead_short_read_diverges :
    cleanReads (syncEnv 5 25)
      (SyncRead (pinAB 1) (syncEnv 5 25) 90 30 (some 4096) (some 0)).reads 0 = true ∧
    (SyncRead (pinAB 1) (syncEnv 5 25) 90 30 (some 4096) (some 0)).reads =
      [{ file := 1, buffer := 4096, count := 10, Offset := 110, OffsetHigh := 0 },
       { file := 2, buffer := 4101, count := 25, Offset := 20, OffsetHigh := 0 }] ∧
    (Request (pinAB 1) (envOk ⟨0, 0, 0⟩) (some (sampleOf 90 120)) 5).reads =
      [{ file := 1, buffer := 4096, count := 10, Offset := 110, OffsetHigh := 0 },
       { file := 2, buffer := 4106, count := 20, Offset := 20, OffsetHigh := 0 }] ∧
    ¬ ((SyncRead (pinAB 1) (syncEnv 5 25) 90 30 (some 4096) (some 0)).reads <+:
        (Request (pinAB 1) (envOk ⟨0, 0, 0⟩) (some (sampleOf 90 120)) 5).reads) ∧
    (SyncRead (pinAB 1) (syncEnv 5 25) 90 30 (some 4096) (some 0)).hr = S_OK ∧
    (SyncRead (pinAB 1) (syncEnv 5 25) 90 30 (some 4096) (some 0)).cbActual = some 30 ∧
    handedOver (WaitForNext (Request (pinAB 1) (envOk ⟨0, 0, 0⟩) (some (sampleOf 90 120)) 5).pin
        ⟨WAIT_OBJECT_0, (syncEnv 5 25).overlapped⟩ 0 (some none) (some 0)) =
      some (S_FALSE, some 5, some (some { sampleOf 90 120 with actualDataLength := 5 })) := by
  decide

/-- Agreement of the two paths on full reads: for a request that `Request`
would take (a sample converted to the same offset, length and buffer, passing
the alignment check), as long as every read `SyncRead` completes delivers
exactly the byte count asked of it (reads may also fail), the physical reads
`SyncRead` issues are a prefix of the segment sequence `Request` produces; and
for every outcome without an I/O error, on every return after the first read
was attempted `cbActual` is the sum of the bytes the reads delivered and `S_OK`
is returned exactly when that sum equals the length. -/
theorem SyncRead_same_decomposition (pin : CRFSOutputPin) (senv : SyncEnv)
    (renv : RequestEnv) (s s1 : IMediaSample) (tok : Nat) (f : File) (o : Int)
    (len buf : Nat) (c0 : Int)
    (hfl : pin.m_flush = false) (hf : pin.m_file = some f) (hwf : f.wellFormed)
    (hrenv : renv.benign)
    (hcs : ConvertSample pin.m_align f (some s) renv.uninit = (S_OK, some s1, ⟨o, len, buf⟩))
    (halign : (IsAligned pin.m_align o && IsAligned pin.m_align (len : Int) &&
      IsAligned pin.m_align (buf : Int)) = true)
    (hlen : (len : Int) ≤ LONG_MAX) :
    (fullReads senv (SyncRead pin senv o len (some buf) (some c0)).reads 0 = true →
      (SyncRead pin senv o len (some buf) (some c0)).reads <+:
        (Request pin renv (some s) tok).reads) ∧
    (cleanReads senv (SyncRead pin senv o len (some buf) (some c0)).reads 0 = true →
      (SyncRead pin senv o len (some buf) (some c0)).reads ≠ [] →
      (SyncRead pin senv o len (some buf) (some c0)).cbActual =
        some ((delivered senv (SyncRead pin senv o len (some buf) (some c0)).reads 0 : Nat) : Int) ∧
      ((SyncRead pin senv o len (some buf) (some c0)).hr = S_OK ↔
        delivered senv (SyncRead pin senv o len (some buf) (some c0)).reads 0 = len)) := by
  by_cases hneg : (FindStartPart f pin.m_prev_part o).1 = -1
  · have hS : (SyncRead pin senv o len (some buf) (some c0)).reads = [] := by
      simp [SyncRead, hf, hneg]
    rw [hS]
    exact ⟨fun _ => List.nil_prefix, fun _ h => absurd rfl h⟩
  obtain ⟨t, p, ht, hp, hc⟩ := FindStartPart_sound f pin.m_prev_part o hneg
  have hdrop := drop_of_getElem? f.array t p hp
  have hne1 : ((t : Int) == -1) = false := by
    simp only [beq_eq_false_iff_ne, ne_eq]
    omega
  by_cases hev : senv.hEvent = 0
  · have hS : (SyncRead pin senv o len (some buf) (some c0)).reads = [] := by
      simp [SyncRead, hf, ht, hne1, hdrop, hev]
    rw [hS]
    exact ⟨fun _ => List.nil_prefix, fun _ h => absurd rfl h⟩
  have hS : SyncRead pin senv o len (some buf) (some c0) =
      { hr := (syncLoop senv buf (p :: f.array.drop (t + 1)) 0 (toDWORD (o - p.in_file_offset))
          (p.in_rar_offset + ((toDWORD (o - p.in_file_offset) : Nat) : Int)) len 0 []).1
        cbActual := some (toLONG (syncLoop senv buf (p :: f.array.drop (t + 1)) 0
          (toDWORD (o - p.in_file_offset))
          (p.in_rar_offset + ((toDWORD (o - p.in_file_offset) : Nat) : Int)) len 0 []).2.1)
        m_prev_part := (FindStartPart f pin.m_prev_part o).2
        reads := (syncLoop senv buf (p :: f.array.drop (t + 1)) 0 (toDWORD (o - p.in_file_offset))
          (p.in_rar_offset + ((toDWORD (o - p.in_file_offset) : Nat) : Int)) len 0 []).2.2 } := by
    simp [SyncRead, hf, ht, hne1, hdrop, hev]
  have hfailed : FAILED S_OK = false := by decide
  have hR : (Request pin renv (some s) tok).reads =
      (requestLoop renv.sub buf (p :: f.array.drop (t + 1)) 0 (toDWORD (o - p.in_file_offset))
        (p.in_rar_offset + ((toDWORD (o - p.in_file_offset) : Nat) : Int)) len 0
        { dwUser := tok, pSample := some s1, count := 0, subreqs := [] } []).2.2 := by
    unfold Request
    simp only [hfl, hf, hcs, hfailed, halign, ht, hne1, hrenv.1, Int.toNat_ofNat, hdrop,
      Bool.false_eq_true, if_false, Bool.not_true]
    split <;> rfl
  rw [hS, hR]
  simp only
  constructor
  · intro hfull
    exact syncLoop_prefix senv renv.sub buf hrenv.2 _ _ _ _ _ _ _ hfull
  · intro hclean _
    have hcov := (compare_eq_zero_iff _ _).1 hc
    have hps : positiveSizes (p :: f.array.drop (t + 1)) := by
      rw [← hdrop]
      exact positiveSizes_drop _ _ (positiveSizes_of_contiguous _ _ hwf.1)
    have hin : insideFirst (p :: f.array.drop (t + 1)) (toDWORD (o - p.in_file_offset)) := by
      show ((toDWORD (o - p.in_file_offset) : Nat) : Int) < p.size
      unfold toDWORD
      omega
    have hlen2 : len < 2147483648 := by
      unfold LONG_MAX at hlen
      omega
    obtain ⟨i1, i2, i3⟩ := syncLoop_clean senv buf _ 0 _
      (p.in_rar_offset + ((toDWORD (o - p.in_file_offset) : Nat) : Int)) len 0
      (by omega) hps hin (by simp) hclean
    refine ⟨?_, i3⟩
    rw [i1, Nat.zero_add]
    rw [toLONG_of_le _ (by unfold LONG_MAX; omega)]

theorem SyncRead_same_decomposition_witness :
    (fullReads (syncEnv 10 20)
        (SyncRead (pinAB 1) (syncEnv 10 20) 90 30 (some 4096) (some 0)).reads 0 = true →
      (SyncRead (pinAB 1) (syncEnv 10 20) 90 30 (some 4096) (some 0)).reads <+:
        (Request (pinAB 1) (envOk ⟨0, 0, 0⟩) (some (sampleOf 90 120)) 5).reads) ∧
    (cleanReads (syncEnv 10 20)
        (SyncRead (pinAB 1) (syncEnv 10 20) 90 30 (some 4096) (some 0)).reads 0 = true →
      (SyncRead (pinAB 1) (syncEnv 10 20) 90 30 (some 4096) (some 0)).reads ≠ [] →
      (SyncRead (pinAB 1) (syncEnv 10 20) 90 30 (some 4096) (some 0)).cbActual =
        some ((delivered (syncEnv 10 20)
          (SyncRead (pinAB 1) (syncEnv 10 20) 90 30 (some 4096) (some 0)).reads 0 : Nat) : Int) ∧
      ((SyncRead (pinAB 1) (syncEnv 10 20) 90 30 (some 4096) (some 0)).hr = S_OK ↔
        delivered (syncEnv 10 20)
          (SyncRead (pinAB 1) (syncEnv 10 20) 90 30 (some 4096) (some 0)).reads 0 = 30)) :=
  SyncRead_same_decomposition (pinAB 1) (syncEnv 10 20) (envOk ⟨0, 0, 0⟩) (sampleOf 90 120)
    (sampleOf 90 120) 5 fileAB 90 30 4096 0 rfl rfl fileAB_wellFormed (envOk_benign _)
    (by decide) (by decide) (by decide)

end RFS
